import Mathlib

/-!
# mirrorlab traffic shadowing: guardrail, mirror admission and response differ

A shallow embedding of `proxy/guardrail.go`, `proxy/diff.go` and the mirror
admission of `proxy/proxy_handler.go`, with theorems about the guardrail
circuit breaker, the Bernoulli admission test and the JSON sanitizer.

Conventions.
* Go `int`, `int64` and `time.Duration` are `Int`; the increment and decrement
  of `breachStreak` wrap at 64 bits (`wrapInt64`).
* `time.Time` is an instant in nanoseconds on one time line whose origin is
  the zero `time.Time`; the clock reading of `time.Now()` is an explicit
  argument of the operations that read the clock.
* `float64` is its IEEE-754 bit pattern (`Float64`); the comparisons are
  defined on the bits, the rounding operations (conversion, division,
  formatting) are fields of `FloatLib`, with `ieee` as an instance.
* The mutex of `Guardrail` makes every operation atomic, so an operation is
  a function from the state before to the state after. The Prometheus
  gauge and counter updates are outside the model.
-/

set_option maxRecDepth 20000

namespace MirrorLab

/-! ## float64 -/

/-- A `float64`, given by its IEEE-754 binary64 bit pattern (the low 64 bits
of `bits`). -/
structure Float64 where
  bits : Nat
deriving DecidableEq, Repr

namespace Float64

/-- Sign bit. -/
def sign (x : Float64) : Nat := x.bits / 2 ^ 63 % 2

/-- Biased exponent field (11 bits). -/
def expo (x : Float64) : Nat := x.bits / 2 ^ 52 % 2 ^ 11

/-- Fraction field (52 bits). -/
def frac (x : Float64) : Nat := x.bits % 2 ^ 52

/-- Whether the value is a NaN: exponent all ones, fraction non-zero. -/
def isNaN (x : Float64) : Bool := x.expo == 2047 && x.frac != 0

/-- Sign-magnitude reading of the bits. On values that are not NaN the IEEE
order is the order of these integers (`-0` and `+0` both read `0`). -/
def key (x : Float64) : Int :=
  if x.sign = 1 then -((x.bits % 2 ^ 63 : Nat) : Int) else ((x.bits % 2 ^ 63 : Nat) : Int)

/-- Go `x < y` on float64: false when either side is NaN. -/
def lt (x y : Float64) : Bool := !x.isNaN && !y.isNaN && decide (x.key < y.key)

/-- Go `x <= y` on float64: false when either side is NaN. -/
def le (x y : Float64) : Bool := !x.isNaN && !y.isNaN && decide (x.key ≤ y.key)

/-- Go `x > y` on float64: false when either side is NaN. -/
def gt (x y : Float64) : Bool := !x.isNaN && !y.isNaN && decide (y.key < x.key)

/-- Go `x >= y` on float64: false when either side is NaN. -/
def ge (x y : Float64) : Bool := !x.isNaN && !y.isNaN && decide (y.key ≤ x.key)

/-- The constant `0`. -/
def zero : Float64 := ⟨0⟩

/-- The constant `1.0`. -/
def one : Float64 := ⟨0x3FF0000000000000⟩

/-- The constant `2.0`. -/
def two : Float64 := ⟨0x4000000000000000⟩

/-- The value `0.5`. -/
def half : Float64 := ⟨0x3FE0000000000000⟩

/-- The nearest float64 to `1.15` (the default `ABORT_P99_RATIO`). -/
def c1_15 : Float64 := ⟨0x3FF2666666666666⟩

/-- The nearest float64 to `0.005` (the default `ABORT_ERROR_DELTA`). -/
def c0_005 : Float64 := ⟨0x3F747AE147AE147B⟩

/-- The nearest float64 to `0.25` (the default `MIRROR_FRACTION`). -/
def quarter : Float64 := ⟨0x3FD0000000000000⟩

/-- The NaN that `strconv.ParseFloat("NaN", 64)` returns. -/
def nan : Float64 := ⟨0x7FF8000000000001⟩

/-- Positive infinity. -/
def inf : Float64 := ⟨0x7FF0000000000000⟩

/-- Binary logarithm rounded down, by repeated halving (`fuel` bounds the
number of halvings). -/
def log2Fuel : Nat → Nat → Nat
  | 0, _ => 0
  | fuel + 1, n => if n < 2 then 0 else log2Fuel fuel (n / 2) + 1

/-- Binary logarithm of `n` rounded down (`0` for `n = 0`). -/
def log2 (n : Nat) : Nat := log2Fuel n n

/-- Bits of the float64 nearest to the positive rational `n / d`
(round to nearest, ties to even; overflow gives the infinity pattern).
Requires `0 < n` and `0 < d`. -/
def roundPos (n d : Nat) : Nat :=
  let e0 : Int := (log2 n : Int) - (log2 d : Int)
  -- `e` is the floor of the binary logarithm of `n / d`
  let e : Int := if e0 ≥ 0 then (if d * 2 ^ e0.toNat ≤ n then e0 else e0 - 1)
                 else (if d ≤ n * 2 ^ (-e0).toNat then e0 else e0 - 1)
  let e1 : Int := max e (-1022)
  let sh : Int := 52 - e1
  let num : Nat := if sh ≥ 0 then n * 2 ^ sh.toNat else n
  let den : Nat := if sh ≥ 0 then d else d * 2 ^ (-sh).toNat
  let q := num / den
  let r := num % den
  let m := if den < 2 * r ∨ (2 * r = den ∧ q % 2 = 1) then q + 1 else q
  let b := (e1 + 1022).toNat * 2 ^ 52 + m
  if b ≥ 0x7FF0000000000000 then 0x7FF0000000000000 else b

/-- Numerator of the exact value of a finite float64's magnitude. -/
def magNum (x : Float64) : Nat :=
  if x.expo = 0 then x.frac
  else if x.expo ≥ 1075 then (2 ^ 52 + x.frac) * 2 ^ (x.expo - 1075)
  else 2 ^ 52 + x.frac

/-- Denominator of the exact value of a finite float64's magnitude. -/
def magDen (x : Float64) : Nat :=
  if x.expo = 0 then 2 ^ 1074
  else if x.expo ≥ 1075 then 1
  else 2 ^ (1075 - x.expo)

/-- The conversion `float64(d)` of an `int64`. -/
def ofInt64 (d : Int) : Float64 :=
  if d = 0 then ⟨0⟩
  else if d < 0 then ⟨2 ^ 63 + roundPos d.natAbs 1⟩
  else ⟨roundPos d.natAbs 1⟩

/-- IEEE-754 division `x / y`, round to nearest even. -/
def div (x y : Float64) : Float64 :=
  let s := (x.sign + y.sign) % 2 * 2 ^ 63
  if x.isNaN || y.isNaN then nan
  else if x.expo = 2047 then (if y.expo = 2047 then nan else ⟨s + inf.bits⟩)
  else if y.expo = 2047 then ⟨s⟩
  else if y.magNum = 0 then (if x.magNum = 0 then nan else ⟨s + inf.bits⟩)
  else if x.magNum = 0 then ⟨s⟩
  else ⟨s + roundPos (x.magNum * y.magDen) (x.magDen * y.magNum)⟩

/-- Two decimal digits of a number below one hundred. -/
def twoDigits (n : Nat) : String :=
  (if n < 10 then "0" else "") ++ toString n

/-- The verb `%.2f` of `fmt`: the exact value rounded to two decimals
(ties to even). -/
def fmt2 (x : Float64) : String :=
  if x.isNaN then "NaN"
  else if x.expo = 2047 then (if x.sign = 1 then "-Inf" else "+Inf")
  else
    let num := x.magNum * 100
    let den := x.magDen
    let q := num / den
    let r := num % den
    let h := if den < 2 * r ∨ (2 * r = den ∧ q % 2 = 1) then q + 1 else q
    (if x.sign = 1 then "-" else "") ++ toString (h / 100) ++ "." ++ twoDigits (h % 100)

end Float64

/-- The rounding operations of float64 that the guardrail uses. The theorems
hold for every `FloatLib`; `ieee` is the IEEE-754 instance. -/
structure FloatLib where
  /-- Conversion `float64(d)` of a duration. -/
  ofInt64 : Int → Float64
  /-- Division of two float64. -/
  div : Float64 → Float64 → Float64
  /-- The verb `%.2f`. -/
  fmt2 : Float64 → String

/-- IEEE-754 round-to-nearest-even arithmetic. -/
def ieee : FloatLib where
  ofInt64 := Float64.ofInt64
  div := Float64.div
  fmt2 := Float64.fmt2

/-! ## Guardrail (`proxy/guardrail.go`) -/

/-- Largest `int64`. -/
def maxInt64 : Int := 2 ^ 63 - 1

/-- Smallest `int64`. -/
def minInt64 : Int := -(2 ^ 63)

/-- Two's complement wrap of an integer into the `int64` range. -/
def wrapInt64 (x : Int) : Int := (x + 2 ^ 63) % 2 ^ 64 - 2 ^ 63

/-- The constant `time.Millisecond`, in nanoseconds. -/
def Millisecond : Int := 1000000

/-- The constant `time.Second`, in nanoseconds. -/
def Second : Int := 1000000000

/-- The duration `time.Since(t)` read at clock `now`: `now.Sub(t)`, which
saturates at the ends of the `int64` range. -/
def timeSince (now t : Int) : Int :=
  if now - t > maxInt64 then maxInt64
  else if now - t < minInt64 then minInt64
  else now - t

/-- The struct `GuardrailConfig`. -/
structure GuardrailConfig where
  LatencyRatioThreshold : Float64
  ErrorDeltaThreshold : Float64
  BreachConsecutive : Int
  Cooldown : Int
deriving DecidableEq, Repr

/-- The anonymous struct `Guardrail.state`. -/
structure GuardrailState where
  enabled : Bool
  lastAbortTime : Int
  lastAbortReason : String
  breachStreak : Int
deriving DecidableEq, Repr

/-- The struct `Guardrail` (without its mutex). -/
structure Guardrail where
  cfg : GuardrailConfig
  state : GuardrailState
deriving DecidableEq, Repr

/-- The struct `GuardrailStatus`. -/
structure GuardrailStatus where
  Enabled : Bool
  LastAbortTime : Int
  LastAbortReason : String
  BreachStreak : Int
  LatencyRatioThreshold : Float64
  ErrorDeltaThreshold : Float64
  BreachConsecutive : Int
  Cooldown : Int
deriving DecidableEq, Repr

/-- `NewGuardrail`: the state is zero-valued except `enabled = true`. -/
def NewGuardrail (cfg : GuardrailConfig) : Guardrail :=
  { cfg := cfg
    state := { enabled := true, lastAbortTime := 0, lastAbortReason := "", breachStreak := 0 } }

namespace Guardrail

/-- `ShouldMirror` at clock reading `now`: the returned flag and the
guardrail after the call. -/
def ShouldMirror (g : Guardrail) (now : Int) : Bool × Guardrail :=
  if g.state.enabled then (true, g)
  else if g.cfg.Cooldown ≤ 0 then (false, g)
  else if timeSince now g.state.lastAbortTime ≥ g.cfg.Cooldown then
    (true, { g with state := { g.state with enabled := true } })
  else (false, g)

/-- The local `latencyRatio` of `ObservePair`, after the baseline latency
has been floored to one millisecond. -/
def latencyRatio (L : FloatLib) (baselineLat candidateLat : Int) : Float64 :=
  let baselineLat := if baselineLat ≤ 0 then Millisecond else baselineLat
  L.div (L.ofInt64 candidateLat) (L.ofInt64 baselineLat)

/-- The local `breach` of `ObservePair` once both tests have run. -/
def breach (L : FloatLib) (cfg : GuardrailConfig) (baselineLat candidateLat : Int)
    (baselineErr candidateErr : Bool) : Bool :=
  let breach := false
  let breach :=
    if (latencyRatio L baselineLat candidateLat).gt cfg.LatencyRatioThreshold then true else breach
  let breach :=
    if candidateErr && !baselineErr then
      (if Float64.one.gt cfg.ErrorDeltaThreshold then true else breach)
    else breach
  breach

/-- The abort reason that `fmt.Sprintf` builds in `ObservePair`. -/
def abortReason (L : FloatLib) (route : String) (ratio : Float64)
    (baselineErr candidateErr : Bool) : String :=
  "route=" ++ route ++ " latencyRatio=" ++ L.fmt2 ratio ++
    " baselineErr=" ++ toString baselineErr ++ " candidateErr=" ++ toString candidateErr

/-- `ObservePair` at clock reading `now`. -/
def ObservePair (L : FloatLib) (g : Guardrail) (now : Int) (route : String)
    (baselineLat candidateLat : Int) (baselineErr candidateErr : Bool) : Guardrail :=
  if !g.state.enabled then g
  else
    let ratio := latencyRatio L baselineLat candidateLat
    let streak :=
      if breach L g.cfg baselineLat candidateLat baselineErr candidateErr then
        wrapInt64 (g.state.breachStreak + 1)
      else if g.state.breachStreak > 0 then wrapInt64 (g.state.breachStreak - 1)
      else g.state.breachStreak
    if streak ≥ g.cfg.BreachConsecutive then
      { g with state :=
          { enabled := false
            lastAbortTime := now
            lastAbortReason := abortReason L route ratio baselineErr candidateErr
            breachStreak := 0 } }
    else { g with state := { g.state with breachStreak := streak } }

/-- `Disable` at clock reading `now`. -/
def Disable (g : Guardrail) (now : Int) (reason : String) : Guardrail :=
  if !g.state.enabled then g
  else
    let reason := if reason = "" then "manual disable" else reason
    { g with state :=
        { enabled := false, lastAbortTime := now, lastAbortReason := reason, breachStreak := 0 } }

/-- `Enable`. -/
def Enable (g : Guardrail) (reason : String) : Guardrail :=
  if g.state.enabled then g
  else
    { g with state :=
        { g.state with
          enabled := true
          breachStreak := 0
          lastAbortReason := if reason ≠ "" then reason else g.state.lastAbortReason } }

/-- `Status`: a snapshot; the guardrail is unchanged. -/
def Status (g : Guardrail) : GuardrailStatus :=
  { Enabled := g.state.enabled
    LastAbortTime := g.state.lastAbortTime
    LastAbortReason := g.state.lastAbortReason
    BreachStreak := g.state.breachStreak
    LatencyRatioThreshold := g.cfg.LatencyRatioThreshold
    ErrorDeltaThreshold := g.cfg.ErrorDeltaThreshold
    BreachConsecutive := g.cfg.BreachConsecutive
    Cooldown := g.cfg.Cooldown }

end Guardrail

/-- The arguments of one `ObservePair` call and the clock reading during
the call. -/
structure Observation where
  now : Int
  route : String
  baselineLat : Int
  candidateLat : Int
  baselineErr : Bool
  candidateErr : Bool
deriving DecidableEq, Repr

/-- One call on the guardrail's public surface, with the clock reading of
the calls that read the clock. -/
inductive Call where
  | shouldMirror (now : Int)
  | observePair (o : Observation)
  | disable (now : Int) (reason : String)
  | enable (reason : String)
  | status
deriving DecidableEq, Repr

namespace Guardrail

/-- `ObservePair` on a recorded observation. -/
def observe (L : FloatLib) (g : Guardrail) (o : Observation) : Guardrail :=
  g.ObservePair L o.now o.route o.baselineLat o.candidateLat o.baselineErr o.candidateErr

/-- Consecutive `ObservePair` calls, first observation first. -/
def observeAll (L : FloatLib) (g : Guardrail) (obs : List Observation) : Guardrail :=
  obs.foldl (observe L) g

/-- Whether an observation breaches under a configuration. -/
def breaches (L : FloatLib) (cfg : GuardrailConfig) (o : Observation) : Bool :=
  breach L cfg o.baselineLat o.candidateLat o.baselineErr o.candidateErr

/-- The flags returned by consecutive `ShouldMirror` calls at the given
clock readings. -/
def polls (g : Guardrail) : List Int → List Bool
  | [] => []
  | now :: rest => (g.ShouldMirror now).1 :: polls (g.ShouldMirror now).2 rest

/-- The guardrail after one call. -/
def step (L : FloatLib) (g : Guardrail) : Call → Guardrail
  | .shouldMirror now => (g.ShouldMirror now).2
  | .observePair o => g.observe L o
  | .disable now reason => g.Disable now reason
  | .enable reason => g.Enable reason
  | .status => g

/-- The guardrail after a sequence of calls, first call first. -/
def run (L : FloatLib) (g : Guardrail) (calls : List Call) : Guardrail :=
  calls.foldl (step L) g

end Guardrail

/-! ## Mirror admission (`Proxy.ServeHTTP` in `proxy/proxy_handler.go`) -/

/-- The fields of `Proxy` that decide whether a request is mirrored. -/
structure Proxy where
  guard : Guardrail
  mirrorFraction : Float64
deriving DecidableEq, Repr

/-- What the I/O steps of one `ServeHTTP` call returned. -/
structure Exchange where
  /-- Reading the request body failed. -/
  readBodyErr : Bool
  /-- Building the baseline request failed. -/
  newRequestErr : Bool
  /-- The call `p.client.Do(bReq)` failed. -/
  doErr : Bool
  /-- Reading the baseline response body failed. -/
  readResponseErr : Bool
  /-- Status code of the baseline response. -/
  baselineStatus : Int
deriving DecidableEq, Repr

/-- What one `ServeHTTP` call did: the status written to the client, whether
`go p.mirrorToCandidate(...)` was executed, and the guardrail afterwards. -/
structure Served where
  status : Int
  mirrored : Bool
  guard : Guardrail
deriving DecidableEq, Repr

/-- The round trip to the baseline succeeded: no step of it returned an
error. -/
def Exchange.baselineOk (x : Exchange) : Bool :=
  !x.readBodyErr && !x.newRequestErr && !x.doErr && !x.readResponseErr

/-- `Proxy.ServeHTTP` for one request: `now` is the clock reading inside
`ShouldMirror` and `u` the value of `rand.Float64()`. -/
def Proxy.ServeHTTP (p : Proxy) (x : Exchange) (now : Int) (u : Float64) : Served :=
  if x.readBodyErr then ⟨400, false, p.guard⟩
  else if x.newRequestErr then ⟨500, false, p.guard⟩
  else if x.doErr then ⟨502, false, p.guard⟩
  else if x.readResponseErr then ⟨502, false, p.guard⟩
  else
    let r := p.guard.ShouldMirror now
    if !r.1 then ⟨x.baselineStatus, false, r.2⟩
    else if p.mirrorFraction.le Float64.zero || u.ge p.mirrorFraction then
      ⟨x.baselineStatus, false, r.2⟩
    else ⟨x.baselineStatus, true, r.2⟩

/-! ## Response differ (`proxy/diff.go`) -/

/-- A decoded JSON value: what `json.Unmarshal` stores in an `any`. An object
is a `map[string]any`, listed here in the order in which `range` visits it;
a Go map holds each key once (`JSON.wellFormed`). -/
inductive JSON where
  | null : JSON
  | bool (b : Bool) : JSON
  | num (x : Float64) : JSON
  | str (s : String) : JSON
  | arr (xs : List JSON) : JSON
  | obj (kvs : List (String × JSON)) : JSON

/-- The library functions that `diff.go` calls. The theorems hold for every
`JSONLib`. -/
structure JSONLib where
  /-- The function `strings.ToLower`. -/
  toLower : String → String
  /-- The function `json.Unmarshal` into an `any`; `none` is a parse error. -/
  unmarshal : List UInt8 → Option JSON
  /-- The quoted and escaped text that `json.Marshal` writes for a string. -/
  encodeString : String → String
  /-- The text that `json.Marshal` writes for a number. -/
  encodeNumber : Float64 → String
  /-- The function `bytes.TrimSpace`. -/
  trimSpace : List UInt8 → List UInt8

/-- The variable `ignoreKeys`: the keys of the map literal. -/
def ignoreKeys : List String :=
  ["timestamp", "trace_id", "traceId", "request_id", "requestId"]

/-- The variable `piiKeys`: the keys of the map literal. -/
def piiKeys : List String := ["email", "phone", "name", "cc_last4"]

/-- The constant `piiMask`. -/
def piiMask : String := "***"

/-- The map assignment `m[k] = v`: the entry of `k` is replaced where it
stands, a new key is added. -/
def mapAssign {α : Type} (m : List (String × α)) (k : String) (v : α) : List (String × α) :=
  match m with
  | [] => [(k, v)]
  | (k', v') :: rest => if k' = k then (k, v) :: rest else (k', v') :: mapAssign rest k v

mutual
/-- `sanitizeJSON`. -/
def sanitizeJSON (lib : JSONLib) : JSON → JSON
  | .obj vv => .obj (sanitizeFields lib vv [])
  | .arr vv => .arr (sanitizeElems lib vv)
  | .null => .null
  | .bool b => .bool b
  | .num x => .num x
  | .str s => .str s
/-- The `range` loop of the object case of `sanitizeJSON`: the entries still
to visit and the map `out` built so far. -/
def sanitizeFields (lib : JSONLib) :
    List (String × JSON) → List (String × JSON) → List (String × JSON)
  | [], out => out
  | (k, val) :: rest, out =>
    if ignoreKeys.contains (lib.toLower k) then sanitizeFields lib rest out
    else if piiKeys.contains (lib.toLower k) then
      sanitizeFields lib rest (mapAssign out k (.str piiMask))
    else sanitizeFields lib rest (mapAssign out k (sanitizeJSON lib val))
/-- The `range` loop of the array case of `sanitizeJSON`. -/
def sanitizeElems (lib : JSONLib) : List JSON → List JSON
  | [] => []
  | el :: rest => sanitizeJSON lib el :: sanitizeElems lib rest
end

/-- Order in which `json.Marshal` writes the entries of a map: by key,
byte-wise (on UTF-8 the order of the code points). -/
def keyLE (p q : String × String) : Prop := p.1.data ≤ q.1.data

instance : DecidableRel keyLE := fun p q => inferInstanceAs (Decidable (p.1.data ≤ q.1.data))

mutual
/-- The text `json.Marshal` writes for a decoded value: the entries of an
object sorted by key, no white space. Marshal sorts the entries by key and
then encodes each value; here each value is encoded and the encoded entries
are sorted by the same keys, which gives the same text. -/
def encode (lib : JSONLib) : JSON → String
  | .null => "null"
  | .bool b => if b then "true" else "false"
  | .num x => lib.encodeNumber x
  | .str s => lib.encodeString s
  | .arr xs => "[" ++ ",".intercalate (encodeElems lib xs) ++ "]"
  | .obj kvs =>
    "\x7b" ++ ",".intercalate
      ((List.insertionSort keyLE (encodeFields lib kvs)).map
        (fun p => lib.encodeString p.1 ++ ":" ++ p.2)) ++ "\x7d"
/-- The encoded elements of an array. -/
def encodeElems (lib : JSONLib) : List JSON → List String
  | [] => []
  | x :: rest => encode lib x :: encodeElems lib rest
/-- The entries of an object, each value encoded. -/
def encodeFields (lib : JSONLib) : List (String × JSON) → List (String × String)
  | [] => []
  | (k, v) :: rest => (k, encode lib v) :: encodeFields lib rest
end

/-- The function `json.Marshal` on a decoded value. It fails on no value of
type `JSON` (no NaN, no infinity, no cycle, no unsupported type). -/
def jsonMarshal (lib : JSONLib) (v : JSON) : Except String String := .ok (encode lib v)

/-- `normalizeRaw`. -/
def normalizeRaw (lib : JSONLib) (b : List UInt8) : List UInt8 := lib.trimSpace b

/-- `equalJSONBodies`: the flag and the error (`none` is `nil`). -/
def equalJSONBodies (lib : JSONLib) (a b : List UInt8) : Bool × Option String :=
  match lib.unmarshal a with
  | none => (decide (normalizeRaw lib a = normalizeRaw lib b), none)
  | some va =>
    match lib.unmarshal b with
    | none => (decide (normalizeRaw lib a = normalizeRaw lib b), none)
    | some vb =>
      let na := sanitizeJSON lib va
      let nb := sanitizeJSON lib vb
      match jsonMarshal lib na with
      | .error err => (false, some err)
      | .ok ba =>
        match jsonMarshal lib nb with
        | .error err => (false, some err)
        | .ok bb => (decide (ba = bb), none)

/-- What the object loop of `sanitizeJSON` stores under key `k` for the value
`val`: nothing for an ignored key, the mask for a PII key, the sanitized
value otherwise. -/
def keptValue (lib : JSONLib) (k : String) (val : JSON) : Option JSON :=
  if ignoreKeys.contains (lib.toLower k) then none
  else if piiKeys.contains (lib.toLower k) then some (.str piiMask)
  else some (sanitizeJSON lib val)

/-- The entry that `json.Marshal` sees for the input entry `p` after
`sanitizeJSON`: the key with the encoded stored value, nothing for a dropped
key. -/
def encodedEntry (lib : JSONLib) (p : String × JSON) : Option (String × String) :=
  (keptValue lib p.1 p.2).map (fun x => (p.1, encode lib x))

/-! ### Relations between decoded values -/

mutual
/-- A value that Go can hold: in every object, at every depth, each key
occurs once. -/
def JSON.wellFormed : JSON → Bool
  | .obj kvs => decide (kvs.map Prod.fst).Nodup && wellFormedFields kvs
  | .arr xs => wellFormedElems xs
  | .null => true
  | .bool _ => true
  | .num _ => true
  | .str _ => true
/-- Every value of the entries is well formed. -/
def wellFormedFields : List (String × JSON) → Bool
  | [] => true
  | (_, v) :: rest => v.wellFormed && wellFormedFields rest
/-- Every element is well formed. -/
def wellFormedElems : List JSON → Bool
  | [] => true
  | x :: rest => x.wellFormed && wellFormedElems rest
end

mutual
/-- Two decoded values are the same up to the order in which their objects
list their entries and up to the values stored under the keys that `exempt`
accepts: scalars are equal, arrays agree element by element in order, and
objects have the same keys with similar values under each key that is not
exempt. With `exempt` always false this is equality of Go values. -/
def JSON.similar (exempt : String → Bool) : JSON → JSON → Bool
  | .null, .null => true
  | .bool a, .bool b => a == b
  | .num x, .num y => decide (x = y)
  | .str s, .str t => s == t
  | .arr xs, .arr ys => similarElems exempt xs ys
  | .obj f, .obj g =>
    (g.map Prod.fst).all (fun k => (f.map Prod.fst).contains k) && similarFields exempt f g
  | _, _ => false
/-- Arrays agree element by element. -/
def similarElems (exempt : String → Bool) : List JSON → List JSON → Bool
  | [], [] => true
  | x :: xs, y :: ys => x.similar exempt y && similarElems exempt xs ys
  | _, _ => false
/-- Every entry on the left has its key on the right, with a similar value
unless the key is exempt. -/
def similarFields (exempt : String → Bool) :
    List (String × JSON) → List (String × JSON) → Bool
  | [], _ => true
  | (k, v) :: rest, g =>
    (match g.lookup k with
      | some w => exempt k || v.similar exempt w
      | none => false) && similarFields exempt rest g
end

/-- No key is exempt. -/
def noExempt : String → Bool := fun _ => false

/-- The keys that `sanitizeJSON` masks: lower-cased, a member of `piiKeys`. -/
def piiExempt (lib : JSONLib) : String → Bool := fun k => piiKeys.contains (lib.toLower k)

/-- The keys that `sanitizeJSON` drops or masks: lower-cased, a member of
`ignoreKeys` or of `piiKeys`. -/
def sanitizedExempt (lib : JSONLib) : String → Bool :=
  fun k => ignoreKeys.contains (lib.toLower k) || piiKeys.contains (lib.toLower k)

/-! ### A library instance for the worked examples

ASCII lower-casing, the escaping of `encoding/json`, ASCII white space
trimming, and a decoder that knows the bodies of the examples. -/

/-- The bytes of an ASCII string. -/
def asciiBytes (s : String) : List UInt8 := s.data.map (fun c => c.toNat.toUInt8)

/-- Lower-casing of the ASCII letters. -/
def asciiLower (s : String) : String := String.mk (s.data.map Char.toLower)

/-- A hexadecimal digit. -/
def hexDigit (n : Nat) : Char := Char.ofNat (if n < 10 then 48 + n else 87 + n)

/-- What `encoding/json` writes for one character of a string (HTML escaping
on). -/
def escapeChar (c : Char) : String :=
  if c.toNat = 34 then "\\\"" else if c.toNat = 92 then "\\\\"
  else if c.toNat = 8 then "\\b" else if c.toNat = 12 then "\\f"
  else if c.toNat = 10 then "\\n" else if c.toNat = 13 then "\\r"
  else if c.toNat = 9 then "\\t"
  else if c.toNat < 32 ∨ c.toNat = 60 ∨ c.toNat = 62 ∨ c.toNat = 38 then
    "\\u00" ++ String.mk [hexDigit (c.toNat / 16), hexDigit (c.toNat % 16)]
  else if c.toNat = 0x2028 then "\\u2028" else if c.toNat = 0x2029 then "\\u2029"
  else String.singleton c

/-- A string in double quotes, escaped. -/
def quoteString (s : String) : String :=
  "\"" ++ String.join (s.data.map escapeChar) ++ "\""

/-- ASCII white space: tab, line feed, vertical tab, form feed, carriage
return, space. -/
def isAsciiSpace (b : UInt8) : Bool :=
  b.toNat = 9 || b.toNat = 10 || b.toNat = 11 || b.toNat = 12 || b.toNat = 13 || b.toNat = 32

/-- Leading and trailing ASCII white space removed. -/
def asciiTrim (b : List UInt8) : List UInt8 :=
  ((b.dropWhile isAsciiSpace).reverse.dropWhile isAsciiSpace).reverse

/-- The text of a number: a finite whole number below `2 ^ 53` in decimal,
as `strconv` writes it; any other number by its bit pattern (a stand-in for
the shortest decimal of `strconv`). -/
def numberText (x : Float64) : String :=
  if x.expo ≠ 2047 ∧ x.magNum % x.magDen = 0 ∧ x.magNum / x.magDen < 2 ^ 53 then
    (if x.sign = 1 then "-" else "") ++ toString (x.magNum / x.magDen)
  else "bits:" ++ toString (x.bits % 2 ^ 64)

/-- The bodies of the worked examples with their decoded values. -/
def exampleBodies : List (List UInt8 × JSON) :=
  [ (asciiBytes "\x7b\"traceId\":\"a\"\x7d", .obj [("traceId", .str "a")]),
    (asciiBytes "\x7b\"traceId\":\"b\"\x7d", .obj [("traceId", .str "b")]),
    (asciiBytes "\x7b\"email\":\"a@b.com\",\"timestamp\":\"t1\"\x7d",
      .obj [("email", .str "a@b.com"), ("timestamp", .str "t1")]),
    (asciiBytes "\x7b\"email\":\"c@d.com\",\"timestamp\":\"t2\"\x7d",
      .obj [("email", .str "c@d.com"), ("timestamp", .str "t2")]),
    (asciiBytes "\x7b\"a\":1,\"b\":\x7b\"x\":true,\"y\":[1,2]\x7d\x7d",
      .obj [("a", .num Float64.one),
            ("b", .obj [("x", .bool true), ("y", .arr [.num Float64.one, .num Float64.two])])]),
    (asciiBytes "\x7b\"b\":\x7b\"y\":[1,2],\"x\":true\x7d,\"a\":1\x7d",
      .obj [("b", .obj [("y", .arr [.num Float64.one, .num Float64.two]), ("x", .bool true)]),
            ("a", .num Float64.one)]) ]

/-- The library instance of the worked examples. -/
def exampleLib : JSONLib where
  toLower := asciiLower
  unmarshal := fun b => exampleBodies.lookup b
  encodeString := quoteString
  encodeNumber := numberText
  trimSpace := asciiTrim

/-! ## Guardrail: lemmas -/

theorem wrapInt64_eq_self {x : Int} (h1 : minInt64 ≤ x) (h2 : x ≤ maxInt64) :
    wrapInt64 x = x := by
  unfold wrapInt64
  unfold minInt64 at h1
  unfold maxInt64 at h2
  omega

theorem timeSince_lt_iff {now t c : Int} (hc : 0 < c) (hmax : c ≤ maxInt64) :
    timeSince now t < c ↔ now - t < c := by
  unfold timeSince
  unfold maxInt64 at *
  unfold minInt64
  split_ifs <;> omega

namespace Guardrail

/-- The flag `breach` of `ObservePair`: the latency test or the candidate-only
error test. -/
theorem breach_eq (L : FloatLib) (cfg : GuardrailConfig) (bl cl : Int) (be ce : Bool) :
    breach L cfg bl cl be ce =
      ((latencyRatio L bl cl).gt cfg.LatencyRatioThreshold ||
        (ce && !be && Float64.one.gt cfg.ErrorDeltaThreshold)) := by
  unfold breach
  cases (latencyRatio L bl cl).gt cfg.LatencyRatioThreshold <;> cases ce <;> cases be <;>
    cases Float64.one.gt cfg.ErrorDeltaThreshold <;> rfl

theorem breach_of_tests (L : FloatLib) (cfg : GuardrailConfig) (bl cl : Int) (be ce : Bool)
    (h : (latencyRatio L bl cl).gt cfg.LatencyRatioThreshold = true ∨
      (ce = true ∧ be = false ∧ Float64.one.gt cfg.ErrorDeltaThreshold = true)) :
    breach L cfg bl cl be ce = true := by
  rw [breach_eq]
  rcases h with h | ⟨h1, h2, h3⟩
  · simp [h]
  · simp [h1, h2, h3]

theorem observe_breach_below (L : FloatLib) (g : Guardrail) (o : Observation)
    (hen : g.state.enabled = true) (hb : breaches L g.cfg o = true)
    (h0 : 0 ≤ g.state.breachStreak) (hmax : g.cfg.BreachConsecutive ≤ maxInt64)
    (hlt : g.state.breachStreak + 1 < g.cfg.BreachConsecutive) :
    g.observe L o = { g with state := { g.state with breachStreak := g.state.breachStreak + 1 } } := by
  have hw : wrapInt64 (g.state.breachStreak + 1) = g.state.breachStreak + 1 :=
    wrapInt64_eq_self (by unfold minInt64; omega) (by omega)
  unfold breaches at hb
  simp only [observe, ObservePair, hen, hb, hw]
  simp [not_le.mpr hlt]

theorem observe_breach_trip (L : FloatLib) (g : Guardrail) (o : Observation)
    (hen : g.state.enabled = true) (hb : breaches L g.cfg o = true)
    (h0 : 0 ≤ g.state.breachStreak) (hmax : g.cfg.BreachConsecutive ≤ maxInt64)
    (hge : g.cfg.BreachConsecutive ≤ g.state.breachStreak + 1)
    (hlt : g.state.breachStreak < g.cfg.BreachConsecutive) :
    (g.observe L o).cfg = g.cfg ∧ (g.observe L o).state.enabled = false ∧
      (g.observe L o).state.breachStreak = 0 ∧ (g.observe L o).state.lastAbortTime = o.now := by
  have hw : wrapInt64 (g.state.breachStreak + 1) = g.state.breachStreak + 1 :=
    wrapInt64_eq_self (by unfold minInt64; omega) (by omega)
  unfold breaches at hb
  simp only [observe, ObservePair, hen, hb, hw]
  simp [hge]

theorem observeAll_breaches (L : FloatLib) (obs : List Observation) :
    ∀ g : Guardrail, g.state.enabled = true → 0 ≤ g.state.breachStreak →
      g.cfg.BreachConsecutive ≤ maxInt64 →
      (∀ o ∈ obs, breaches L g.cfg o = true) →
      g.state.breachStreak + (obs.length : Int) < g.cfg.BreachConsecutive →
      g.observeAll L obs =
        { g with state := { g.state with breachStreak := g.state.breachStreak + obs.length } } := by
  induction obs with
  | nil => intro g _ _ _ _ _; simp [observeAll]
  | cons o rest ih =>
    intro g hen h0 hmax hb hlt
    simp only [List.length_cons, Nat.cast_add, Nat.cast_one] at hlt
    have h1 := observe_breach_below L g o hen (hb o (List.mem_cons_self _ _)) h0 hmax (by omega)
    have e1 : (g.observe L o).state.enabled = true := by rw [h1]; exact hen
    have e2 : (g.observe L o).state.breachStreak = g.state.breachStreak + 1 := by rw [h1]
    have e3 : (g.observe L o).cfg = g.cfg := by rw [h1]
    have h2 := ih (g.observe L o) e1 (by rw [e2]; omega) (by rw [e3]; exact hmax)
      (by rw [e3]; intro o' ho'; exact hb o' (List.mem_cons_of_mem _ ho'))
      (by rw [e2, e3]; omega)
    simp only [observeAll, List.foldl_cons] at h2 ⊢
    rw [h2, h1]
    simp only [List.length_cons, Nat.cast_add, Nat.cast_one]
    congr 2
    omega

/-- The streak that `ObservePair` computes before the trip test (without
the 64-bit wrap). -/
theorem ObservePair_enabled (L : FloatLib) (g : Guardrail) (now : Int) (route : String)
    (bl cl : Int) (be ce : Bool)
    (hen : g.state.enabled = true) (h0 : 0 ≤ g.state.breachStreak)
    (hlt : g.state.breachStreak < g.cfg.BreachConsecutive)
    (hmax : g.cfg.BreachConsecutive ≤ maxInt64) :
    g.ObservePair L now route bl cl be ce =
      if breach L g.cfg bl cl be ce = true then
        (if g.cfg.BreachConsecutive ≤ g.state.breachStreak + 1 then
          { g with state :=
              { enabled := false
                lastAbortTime := now
                lastAbortReason := abortReason L route (latencyRatio L bl cl) be ce
                breachStreak := 0 } }
        else { g with state := { g.state with breachStreak := g.state.breachStreak + 1 } })
      else if 0 < g.state.breachStreak then
        { g with state := { g.state with breachStreak := g.state.breachStreak - 1 } }
      else g := by
  have hw1 : wrapInt64 (g.state.breachStreak + 1) = g.state.breachStreak + 1 :=
    wrapInt64_eq_self (by unfold minInt64; omega) (by omega)
  have hw2 : wrapInt64 (g.state.breachStreak - 1) = g.state.breachStreak - 1 :=
    wrapInt64_eq_self (by unfold minInt64; omega) (by omega)
  unfold ObservePair
  simp only [hen, hw1, hw2]
  by_cases hb : breach L g.cfg bl cl be ce = true
  · simp [hb]
  · by_cases hp : 0 < g.state.breachStreak
    · have : ¬ g.cfg.BreachConsecutive ≤ g.state.breachStreak - 1 := by omega
      simp [hb, hp, this]
    · have : ¬ g.cfg.BreachConsecutive ≤ g.state.breachStreak := by omega
      simp only [hb, hp, this, ge_iff_le, gt_iff_lt, Bool.not_true, Bool.false_eq_true, if_false]
      rcases g with ⟨c, ⟨e, t, r, k⟩⟩
      simp only at hen
      subst hen
      rfl

/-- The invariant of the reachable states: the configuration is the initial
one and the streak lies in `[0, BreachConsecutive)`. -/
theorem step_invariant (L : FloatLib) (cfg : GuardrailConfig)
    (hN : 1 ≤ cfg.BreachConsecutive) (hmax : cfg.BreachConsecutive ≤ maxInt64)
    (g : Guardrail) (c : Call)
    (hg : g.cfg = cfg ∧ 0 ≤ g.state.breachStreak ∧ g.state.breachStreak < cfg.BreachConsecutive) :
    (g.step L c).cfg = cfg ∧ 0 ≤ (g.step L c).state.breachStreak ∧
      (g.step L c).state.breachStreak < cfg.BreachConsecutive := by
  obtain ⟨hc, h0, hlt⟩ := hg
  cases c with
  | shouldMirror now =>
    simp only [step, ShouldMirror]
    split_ifs <;> exact ⟨hc, h0, hlt⟩
  | observePair o =>
    simp only [step, observe]
    by_cases hen : g.state.enabled = true
    · rw [ObservePair_enabled L g _ _ _ _ _ _ hen h0 (by rw [hc]; exact hlt) (by rw [hc]; exact hmax)]
      split_ifs with h1 h2 h3
      · exact ⟨hc, by show (0 : Int) ≤ 0; omega, by show (0 : Int) < _; omega⟩
      · refine ⟨hc, by show (0 : Int) ≤ g.state.breachStreak + 1; omega, ?_⟩
        show g.state.breachStreak + 1 < cfg.BreachConsecutive
        rw [hc] at h2
        omega
      · refine ⟨hc, by show (0 : Int) ≤ g.state.breachStreak - 1; omega, ?_⟩
        show g.state.breachStreak - 1 < cfg.BreachConsecutive
        omega
      · exact ⟨hc, h0, hlt⟩
    · have hen' : g.state.enabled = false := by simpa using hen
      simp only [ObservePair, hen']
      exact ⟨hc, h0, hlt⟩
  | disable now reason =>
    simp only [step, Disable]
    split_ifs <;>
      first
      | exact ⟨hc, h0, hlt⟩
      | exact ⟨hc, by show (0 : Int) ≤ 0; omega, by show (0 : Int) < _; omega⟩
  | enable reason =>
    simp only [step, Enable]
    split_ifs <;>
      first
      | exact ⟨hc, h0, hlt⟩
      | exact ⟨hc, by show (0 : Int) ≤ 0; omega, by show (0 : Int) < _; omega⟩
  | status => exact ⟨hc, h0, hlt⟩

theorem run_invariant (L : FloatLib) (cfg : GuardrailConfig)
    (hN : 1 ≤ cfg.BreachConsecutive) (hmax : cfg.BreachConsecutive ≤ maxInt64)
    (calls : List Call) :
    ∀ g : Guardrail,
      (g.cfg = cfg ∧ 0 ≤ g.state.breachStreak ∧ g.state.breachStreak < cfg.BreachConsecutive) →
      (g.run L calls).cfg = cfg ∧ 0 ≤ (g.run L calls).state.breachStreak ∧
        (g.run L calls).state.breachStreak < cfg.BreachConsecutive := by
  induction calls with
  | nil => intro g hg; exact hg
  | cons c rest ih =>
    intro g hg
    exact ih (g.step L c) (step_invariant L cfg hN hmax g c hg)

theorem polls_disabled_forever (g : Guardrail) (hen : g.state.enabled = false)
    (hc : g.cfg.Cooldown ≤ 0) (times : List Int) : ∀ b ∈ g.polls times, b = false := by
  have hs : ∀ now, g.ShouldMirror now = (false, g) := by
    intro now
    simp [ShouldMirror, hen, hc]
  induction times with
  | nil => intro b hb; simp [polls] at hb
  | cons t rest ih =>
    intro b hb
    simp only [polls, hs, List.mem_cons] at hb
    rcases hb with h | h
    · exact h
    · exact ih b h

end Guardrail

/-! ## float64 comparisons: lemmas -/

namespace Float64

theorem le_false_iff_gt {x y : Float64} (hx : x.isNaN = false) (hy : y.isNaN = false) :
    x.le y = false ↔ x.gt y = true := by
  simp [le, gt, hx, hy]

theorem ge_false_iff_lt {x y : Float64} (hx : x.isNaN = false) (hy : y.isNaN = false) :
    x.ge y = false ↔ x.lt y = true := by
  simp [ge, lt, hx, hy]

theorem not_nan_of_lt {x y : Float64} (h : x.lt y = true) : x.isNaN = false ∧ y.isNaN = false := by
  simp only [lt, Bool.and_eq_true, Bool.not_eq_true', decide_eq_true_eq] at h
  exact h.1

theorem not_nan_of_le {x y : Float64} (h : x.le y = true) : x.isNaN = false ∧ y.isNaN = false := by
  simp only [le, Bool.and_eq_true, Bool.not_eq_true', decide_eq_true_eq] at h
  exact h.1

theorem not_nan_of_ge {x y : Float64} (h : x.ge y = true) : x.isNaN = false ∧ y.isNaN = false := by
  simp only [ge, Bool.and_eq_true, Bool.not_eq_true', decide_eq_true_eq] at h
  exact h.1

theorem lt_of_lt_of_ge {u a f : Float64} (h1 : u.lt a = true) (h2 : f.ge a = true) :
    u.lt f = true := by
  simp only [lt, ge, Bool.and_eq_true, Bool.not_eq_true', decide_eq_true_eq] at h1 h2 ⊢
  exact ⟨⟨h1.1.1, h2.1.1⟩, lt_of_lt_of_le h1.2 h2.2⟩

end Float64

/-! ## Guardrail: theorems -/

/-- C1: from a fresh guardrail with `BreachConsecutive = N ≥ 1`, after `N`
consecutive `ObservePair` calls that each breach (latency ratio above
`LatencyRatioThreshold`, or a candidate-only error with the error-delta
threshold below `1.0`), the guardrail was enabled, with streak `k`, after
each of the first `k < N` calls, and is disabled with `breachStreak = 0`
after the `N`-th, the trip time being the clock reading of the `N`-th
call; a `ShouldMirror` call with `Cooldown ≤ 0`, or before the cooldown has
elapsed, then returns false. -/
theorem C1_trip_after_consecutive_breaches (L : FloatLib) (cfg : GuardrailConfig)
    (obs : List Observation)
    (hN : 1 ≤ cfg.BreachConsecutive) (hmax : cfg.BreachConsecutive ≤ maxInt64)
    (hlen : (obs.length : Int) = cfg.BreachConsecutive)
    (hbreach : ∀ o ∈ obs,
      (Guardrail.latencyRatio L o.baselineLat o.candidateLat).gt cfg.LatencyRatioThreshold
          = true ∨
        (o.candidateErr = true ∧ o.baselineErr = false ∧
          Float64.one.gt cfg.ErrorDeltaThreshold = true)) :
    (∀ k : Nat, k < obs.length →
        ((NewGuardrail cfg).observeAll L (obs.take k)).state.enabled = true ∧
        ((NewGuardrail cfg).observeAll L (obs.take k)).state.breachStreak = k) ∧
    ((NewGuardrail cfg).observeAll L obs).state.enabled = false ∧
    ((NewGuardrail cfg).observeAll L obs).state.breachStreak = 0 ∧
    (∀ o, obs.getLast? = some o →
        ((NewGuardrail cfg).observeAll L obs).state.lastAbortTime = o.now) ∧
    (∀ now : Int,
        cfg.Cooldown ≤ 0 ∨
          timeSince now ((NewGuardrail cfg).observeAll L obs).state.lastAbortTime < cfg.Cooldown →
        (((NewGuardrail cfg).observeAll L obs).ShouldMirror now).1 = false) := by
  have hb : ∀ o ∈ obs, Guardrail.breaches L cfg o = true := fun o ho =>
    Guardrail.breach_of_tests L cfg _ _ _ _ (hbreach o ho)
  clear hbreach
  have hpre : ∀ k : Nat, k < obs.length →
      (NewGuardrail cfg).observeAll L (obs.take k) =
        { NewGuardrail cfg with
          state := { (NewGuardrail cfg).state with breachStreak := (0 : Int) + k } } := by
    intro k hk
    have hl : (obs.take k).length = k := by simp; omega
    have h := Guardrail.observeAll_breaches L (obs.take k) (NewGuardrail cfg) rfl (le_refl _) hmax
      (fun o ho => hb o (List.mem_of_mem_take ho))
      (by rw [hl]; show (0 : Int) + (k : Int) < cfg.BreachConsecutive; omega)
    rw [h, hl]
    rfl
  have hne : obs ≠ [] := by
    intro h
    rw [h] at hlen
    simp at hlen
    omega
  obtain ⟨front, last, rfl⟩ : ∃ front last, obs = front ++ [last] :=
    ⟨obs.dropLast, obs.getLast hne, (List.dropLast_append_getLast hne).symm⟩
  have hfl : ((front ++ [last]).length : Int) = (front.length : Int) + 1 := by simp
  have hfront := hpre front.length (by simp)
  simp only [List.take_left'] at hfront
  have hrun : (NewGuardrail cfg).observeAll L (front ++ [last]) =
      ((NewGuardrail cfg).observeAll L front).observe L last := by
    simp [Guardrail.observeAll, List.foldl_append]
  have htrip := Guardrail.observe_breach_trip L ((NewGuardrail cfg).observeAll L front) last
    (by rw [hfront]; rfl)
    (by rw [hfront]; exact hb last (by simp))
    (by rw [hfront]; show (0 : Int) ≤ 0 + (front.length : Int); omega)
    (by rw [hfront]; exact hmax)
    (by rw [hfront]; show cfg.BreachConsecutive ≤ 0 + (front.length : Int) + 1; omega)
    (by rw [hfront]; show (0 : Int) + (front.length : Int) < cfg.BreachConsecutive; omega)
  rw [← hrun] at htrip
  obtain ⟨hcfg, hdis, hzero, htime⟩ := htrip
  have hcfg' : ((NewGuardrail cfg).observeAll L (front ++ [last])).cfg = cfg := by
    rw [hcfg, hfront]
    rfl
  refine ⟨?_, hdis, hzero, ?_, ?_⟩
  · intro k hk
    rw [hpre k hk]
    exact ⟨rfl, by show (0 : Int) + (k : Int) = k; omega⟩
  · intro o ho
    simp at ho
    rw [htime, ho]
  · intro now hnow
    unfold Guardrail.ShouldMirror
    rw [hdis, hcfg']
    rcases hnow with h | h
    · simp [h]
    · by_cases hc : cfg.Cooldown ≤ 0
      · simp [hc]
      · simp [hc, not_le.mpr h]

/-- The default configuration of `LoadConfig`: ratio 1.15, error delta
0.005, five consecutive breaches, ten seconds of cooldown. -/
theorem C1_witness :
    ((NewGuardrail ⟨Float64.c1_15, Float64.c0_005, 5, 10 * Second⟩).observeAll ieee
        (List.replicate 5 ⟨0, "GET /", Millisecond, 2 * Millisecond, false, false⟩)).state.enabled
      = false ∧
    ((NewGuardrail ⟨Float64.c1_15, Float64.c0_005, 5, 10 * Second⟩).observeAll ieee
        (List.replicate 5 ⟨0, "GET /", Millisecond, 2 * Millisecond, false, false⟩)).state.breachStreak
      = 0 :=
  have h := C1_trip_after_consecutive_breaches ieee
    ⟨Float64.c1_15, Float64.c0_005, 5, 10 * Second⟩
    (List.replicate 5 ⟨0, "GET /", Millisecond, 2 * Millisecond, false, false⟩)
    (by decide) (by decide) (by decide) (by decide)
  ⟨h.2.1, h.2.2.1⟩

/-- C2: `ShouldMirror` returns true exactly when the guardrail is enabled, or
is disabled with a positive cooldown that has elapsed since the last trip
(`time.Since`, which for a positive cooldown is the plain difference of the
two instants); the enabled flag after the call is the returned value and the
trip time, the reason, the streak and the configuration are unchanged. So it
returns true when enabled, false at every later poll while disabled with
`Cooldown ≤ 0`, and with a cooldown of ten seconds false nine seconds and
true eleven seconds after the trip. -/
theorem C2_ShouldMirror_decision (g : Guardrail) (now : Int) :
    ((g.ShouldMirror now).1 = true ↔
      (g.state.enabled = true ∨
        (g.state.enabled = false ∧ 0 < g.cfg.Cooldown ∧
          g.cfg.Cooldown ≤ timeSince now g.state.lastAbortTime))) ∧
    (0 < g.cfg.Cooldown → g.cfg.Cooldown ≤ maxInt64 →
      (g.cfg.Cooldown ≤ timeSince now g.state.lastAbortTime ↔
        g.cfg.Cooldown ≤ now - g.state.lastAbortTime)) ∧
    (g.ShouldMirror now).2.state.enabled = (g.ShouldMirror now).1 ∧
    (g.ShouldMirror now).2.state.lastAbortTime = g.state.lastAbortTime ∧
    (g.ShouldMirror now).2.state.lastAbortReason = g.state.lastAbortReason ∧
    (g.ShouldMirror now).2.state.breachStreak = g.state.breachStreak ∧
    (g.ShouldMirror now).2.cfg = g.cfg ∧
    (g.state.enabled = true → (g.ShouldMirror now).1 = true) ∧
    (g.state.enabled = false → g.cfg.Cooldown ≤ 0 →
      ∀ times : List Int, ∀ b ∈ g.polls times, b = false) ∧
    (g.state.enabled = false → g.cfg.Cooldown = 10 * Second →
      (g.ShouldMirror (g.state.lastAbortTime + 9 * Second)).1 = false ∧
      (g.ShouldMirror (g.state.lastAbortTime + 11 * Second)).1 = true) := by
  refine ⟨?_, ?_, ?_, ?_, ?_, ?_, ?_, ?_, ?_, ?_⟩
  · unfold Guardrail.ShouldMirror
    cases hen : g.state.enabled
    · by_cases hc : g.cfg.Cooldown ≤ 0
      · have : ¬ 0 < g.cfg.Cooldown := by omega
        simp [hc, this]
      · have : 0 < g.cfg.Cooldown := by omega
        by_cases ht : g.cfg.Cooldown ≤ timeSince now g.state.lastAbortTime
        · simp [hc, this, ht]
        · simp [hc, this, ht]
    · simp
  · intro hpos hmax
    have h := @timeSince_lt_iff now g.state.lastAbortTime g.cfg.Cooldown hpos hmax
    constructor
    · intro h1
      by_contra h2
      exact absurd (h.mpr (by omega)) (by omega)
    · intro h1
      by_contra h2
      exact absurd (h.mp (by omega)) (by omega)
  · unfold Guardrail.ShouldMirror
    cases hen : g.state.enabled
    · simp only [Bool.false_eq_true, if_false]
      split_ifs <;> simp [hen]
    · simp [hen]
  · unfold Guardrail.ShouldMirror
    split_ifs <;> rfl
  · unfold Guardrail.ShouldMirror
    split_ifs <;> rfl
  · unfold Guardrail.ShouldMirror
    split_ifs <;> rfl
  · unfold Guardrail.ShouldMirror
    split_ifs <;> rfl
  · intro hen
    simp [Guardrail.ShouldMirror, hen]
  · intro hen hc times
    exact Guardrail.polls_disabled_forever g hen hc times
  · intro hen hc
    have e9 : timeSince (g.state.lastAbortTime + 9 * Second) g.state.lastAbortTime = 9 * Second := by
      unfold timeSince maxInt64 minInt64 Second
      split_ifs <;> omega
    have e11 : timeSince (g.state.lastAbortTime + 11 * Second) g.state.lastAbortTime
        = 11 * Second := by
      unfold timeSince maxInt64 minInt64 Second
      split_ifs <;> omega
    unfold Guardrail.ShouldMirror
    rw [hen, hc, e9, e11]
    unfold Second
    constructor <;> norm_num

/-- A guardrail tripped at instant `1000` with the default configuration:
polled nine seconds later it refuses, eleven seconds later it re-enables. -/
theorem C2_witness :
    ((⟨⟨Float64.c1_15, Float64.c0_005, 5, 10 * Second⟩,
        ⟨false, 1000, "manual disable", 0⟩⟩ : Guardrail).ShouldMirror
          (1000 + 9 * Second)).1 = false ∧
    ((⟨⟨Float64.c1_15, Float64.c0_005, 5, 10 * Second⟩,
        ⟨false, 1000, "manual disable", 0⟩⟩ : Guardrail).ShouldMirror
          (1000 + 11 * Second)).1 = true :=
  (C2_ShouldMirror_decision
    ⟨⟨Float64.c1_15, Float64.c0_005, 5, 10 * Second⟩, ⟨false, 1000, "manual disable", 0⟩⟩
    0).2.2.2.2.2.2.2.2.2 rfl rfl

/-- C3: with `1 ≤ BreachConsecutive`, in every state reached from
`NewGuardrail` by any finite sequence of `ShouldMirror`, `ObservePair`,
`Disable`, `Enable` and `Status` calls, with any arguments and any clock
readings, `0 ≤ breachStreak ≤ BreachConsecutive`. -/
theorem C3_breachStreak_bounds (L : FloatLib) (cfg : GuardrailConfig) (calls : List Call)
    (hN : 1 ≤ cfg.BreachConsecutive) (hmax : cfg.BreachConsecutive ≤ maxInt64) :
    0 ≤ ((NewGuardrail cfg).run L calls).state.breachStreak ∧
      ((NewGuardrail cfg).run L calls).state.breachStreak ≤ cfg.BreachConsecutive := by
  have h := Guardrail.run_invariant L cfg hN hmax calls (NewGuardrail cfg)
    ⟨rfl, le_refl _, by show (0 : Int) < cfg.BreachConsecutive; omega⟩
  exact ⟨h.2.1, le_of_lt h.2.2⟩

/-- Three breaches, a good sample, a manual disable and enable, and a poll,
under the default configuration. -/
theorem C3_witness :
    0 ≤ ((NewGuardrail ⟨Float64.c1_15, Float64.c0_005, 5, 10 * Second⟩).run ieee
        [.observePair ⟨1, "GET /", Millisecond, 2 * Millisecond, false, false⟩,
         .observePair ⟨2, "GET /", Millisecond, 2 * Millisecond, false, true⟩,
         .observePair ⟨3, "GET /", 0, 3 * Millisecond, true, true⟩,
         .observePair ⟨4, "GET /", Millisecond, Millisecond, false, false⟩,
         .status, .disable 5 "", .enable "ops fix", .shouldMirror 6]).state.breachStreak ∧
    ((NewGuardrail ⟨Float64.c1_15, Float64.c0_005, 5, 10 * Second⟩).run ieee
        [.observePair ⟨1, "GET /", Millisecond, 2 * Millisecond, false, false⟩,
         .observePair ⟨2, "GET /", Millisecond, 2 * Millisecond, false, true⟩,
         .observePair ⟨3, "GET /", 0, 3 * Millisecond, true, true⟩,
         .observePair ⟨4, "GET /", Millisecond, Millisecond, false, false⟩,
         .status, .disable 5 "", .enable "ops fix", .shouldMirror 6]).state.breachStreak ≤ 5 :=
  C3_breachStreak_bounds ieee ⟨Float64.c1_15, Float64.c0_005, 5, 10 * Second⟩ _
    (by decide) (by decide)

/-- C4, as stated, fails: `Enable` returns at once on an enabled guardrail
and leaves its streak. Under the default configuration one breaching
observation gives an enabled guardrail with `breachStreak = 1`, and after
`Enable("ops fix")` the streak is still `1`. -/
theorem C4_counterexample :
    ((NewGuardrail ⟨Float64.c1_15, Float64.c0_005, 5, 10 * Second⟩).ObservePair ieee 0 "GET /"
        Millisecond (2 * Millisecond) false false).state.enabled = true ∧
    (((NewGuardrail ⟨Float64.c1_15, Float64.c0_005, 5, 10 * Second⟩).ObservePair ieee 0 "GET /"
        Millisecond (2 * Millisecond) false false).Enable "ops fix").state.breachStreak = 1 ∧
    ¬ (((NewGuardrail ⟨Float64.c1_15, Float64.c0_005, 5, 10 * Second⟩).ObservePair ieee 0 "GET /"
        Millisecond (2 * Millisecond) false false).Enable "ops fix").state.breachStreak = 0 := by
  decide

/-- C4, amended: after `Enable(reason)` the guardrail is enabled and
`ShouldMirror` returns true at every clock reading, whatever the cooldown
and the trip time; the streak is `0` when the guardrail was disabled before
the call, and when it was already enabled the call changes nothing. -/
theorem C4_Enable_reenables (g : Guardrail) (reason : String) :
    (g.Enable reason).state.enabled = true ∧
    (∀ now : Int, ((g.Enable reason).ShouldMirror now).1 = true) ∧
    (g.state.enabled = false → (g.Enable reason).state.breachStreak = 0) ∧
    (g.state.enabled = true → g.Enable reason = g) := by
  have hen : (g.Enable reason).state.enabled = true := by
    unfold Guardrail.Enable
    cases h : g.state.enabled
    · simp
    · simp [h]
  refine ⟨hen, ?_, ?_, ?_⟩
  · intro now
    simp [Guardrail.ShouldMirror, hen]
  · intro h
    simp [Guardrail.Enable, h]
  · intro h
    simp [Guardrail.Enable, h]

/-- A guardrail disabled one second ago with ten seconds of cooldown and a
stale streak: `Enable` zeroes the streak and mirroring resumes at once. -/
theorem C4_witness :
    ((⟨⟨Float64.c1_15, Float64.c0_005, 5, 10 * Second⟩,
        ⟨false, 1000, "manual disable", 3⟩⟩ : Guardrail).Enable "ops fix").state.breachStreak
      = 0 ∧
    (((⟨⟨Float64.c1_15, Float64.c0_005, 5, 10 * Second⟩,
        ⟨false, 1000, "manual disable", 3⟩⟩ : Guardrail).Enable "ops fix").ShouldMirror
          (1000 + Second)).1 = true :=
  have h := C4_Enable_reenables
    ⟨⟨Float64.c1_15, Float64.c0_005, 5, 10 * Second⟩, ⟨false, 1000, "manual disable", 3⟩⟩
    "ops fix"
  ⟨h.2.2.1 rfl, h.2.1 (1000 + Second)⟩

/-- C9: on an enabled guardrail with `0 ≤ breachStreak = s < N`, an
observation with latency ratio at most the threshold and no candidate-only
error above the error-delta threshold leaves it enabled with streak `s - 1`
when `s > 0` and `0` when `s = 0`; a breaching observation (latency ratio
above the threshold, or a candidate-only error above the error-delta
threshold) with `s + 1 < N` leaves it enabled with streak `s + 1`. -/
theorem C9_leaky_streak (L : FloatLib) (g : Guardrail) (now : Int) (route : String)
    (baselineLat candidateLat : Int) (baselineErr candidateErr : Bool)
    (hen : g.state.enabled = true) (hmax : g.cfg.BreachConsecutive ≤ maxInt64)
    (h0 : 0 ≤ g.state.breachStreak) (hlt : g.state.breachStreak < g.cfg.BreachConsecutive) :
    (((Guardrail.latencyRatio L baselineLat candidateLat).le g.cfg.LatencyRatioThreshold = true ∧
        ¬ (candidateErr = true ∧ baselineErr = false ∧
            Float64.one.gt g.cfg.ErrorDeltaThreshold = true)) →
      (g.ObservePair L now route baselineLat candidateLat baselineErr candidateErr).state.enabled
          = true ∧
      (g.ObservePair L now route baselineLat candidateLat baselineErr candidateErr).state.breachStreak
          = (if 0 < g.state.breachStreak then g.state.breachStreak - 1 else 0)) ∧
    ((((Guardrail.latencyRatio L baselineLat candidateLat).gt g.cfg.LatencyRatioThreshold = true ∨
          (candidateErr = true ∧ baselineErr = false ∧
            Float64.one.gt g.cfg.ErrorDeltaThreshold = true)) ∧
        g.state.breachStreak + 1 < g.cfg.BreachConsecutive) →
      (g.ObservePair L now route baselineLat candidateLat baselineErr candidateErr).state.enabled
          = true ∧
      (g.ObservePair L now route baselineLat candidateLat baselineErr candidateErr).state.breachStreak
          = g.state.breachStreak + 1) := by
  rw [Guardrail.ObservePair_enabled L g now route baselineLat candidateLat baselineErr
    candidateErr hen h0 hlt hmax]
  constructor
  · rintro ⟨hle, herr⟩
    have hgt : (Guardrail.latencyRatio L baselineLat candidateLat).gt
        g.cfg.LatencyRatioThreshold = false := by
      simp only [Float64.le, Bool.and_eq_true, Bool.not_eq_true', decide_eq_true_eq] at hle
      simp only [Float64.gt, hle.1.1, hle.1.2, Bool.not_false, Bool.true_and,
        decide_eq_false_iff_not, not_lt]
      exact hle.2
    have hb : Guardrail.breach L g.cfg baselineLat candidateLat baselineErr candidateErr
        = false := by
      unfold Guardrail.breach
      simp only [hgt, Bool.false_eq_true, if_false]
      cases candidateErr <;> cases baselineErr <;> simp_all
    simp only [hb, Bool.false_eq_true, if_false]
    by_cases hp : 0 < g.state.breachStreak
    · simp only [hp, if_true]
      exact ⟨hen, trivial⟩
    · simp only [hp, if_false]
      exact ⟨hen, by omega⟩
  · rintro ⟨hb', hs⟩
    have hb := Guardrail.breach_of_tests L g.cfg _ _ _ _ hb'
    have : ¬ g.cfg.BreachConsecutive ≤ g.state.breachStreak + 1 := by omega
    simp only [hb, this, if_true, if_false]
    exact ⟨hen, trivial⟩

/-- An enabled guardrail with streak `3` of `5`: a good sample (equal
latencies, no error) brings the streak to `2`. -/
theorem C9_witness :
    ((⟨⟨Float64.c1_15, Float64.c0_005, 5, 10 * Second⟩, ⟨true, 0, "", 3⟩⟩ : Guardrail).ObservePair
        ieee 7 "GET /" Millisecond Millisecond false false).state.enabled = true ∧
    ((⟨⟨Float64.c1_15, Float64.c0_005, 5, 10 * Second⟩, ⟨true, 0, "", 3⟩⟩ : Guardrail).ObservePair
        ieee 7 "GET /" Millisecond Millisecond false false).state.breachStreak
      = (if (0 : Int) < 3 then 3 - 1 else 0) :=
  (C9_leaky_streak ieee ⟨⟨Float64.c1_15, Float64.c0_005, 5, 10 * Second⟩, ⟨true, 0, "", 3⟩⟩
    7 "GET /" Millisecond Millisecond false false rfl (by decide) (by decide)
    (by decide)).1 ⟨by decide, by decide⟩

/-- C8, as stated, fails at a NaN mirror fraction (`MIRROR_FRACTION=NaN` is
accepted by `strconv.ParseFloat`): `NaN <= 0` and `u >= NaN` are both false,
so an authorized request is mirrored although `mirrorFraction > 0` does not
hold. Here the guardrail is fresh, the baseline answered `200` and the draw
is `0.5`. -/
theorem C8_counterexample :
    ((⟨NewGuardrail ⟨Float64.c1_15, Float64.c0_005, 5, 10 * Second⟩, Float64.nan⟩ : Proxy).ServeHTTP
        ⟨false, false, false, false, 200⟩ 0 Float64.half).mirrored = true ∧
    ¬ (((NewGuardrail ⟨Float64.c1_15, Float64.c0_005, 5, 10 * Second⟩).ShouldMirror 0).1 = true ∧
        Float64.nan.gt Float64.zero = true ∧ Float64.half.lt Float64.nan = true) := by
  decide

/-- C8, amended: for a request whose baseline round trip succeeded and a
draw `u` in `[0, 1)`: when `mirrorFraction` is not NaN the mirror task is
spawned exactly when `ShouldMirror` returned true, `mirrorFraction > 0` and
`u < mirrorFraction`; whatever the fraction, nothing is mirrored when the
guardrail refuses or when `mirrorFraction ≤ 0`, and every authorized request
is mirrored when `mirrorFraction ≥ 1`. -/
theorem C8_mirror_admission (p : Proxy) (x : Exchange) (now : Int) (u : Float64)
    (hok : x.baselineOk = true)
    (hu : Float64.zero.le u = true ∧ u.lt Float64.one = true) :
    (p.mirrorFraction.isNaN = false →
      ((p.ServeHTTP x now u).mirrored = true ↔
        ((p.guard.ShouldMirror now).1 = true ∧ p.mirrorFraction.gt Float64.zero = true ∧
          u.lt p.mirrorFraction = true))) ∧
    ((p.guard.ShouldMirror now).1 = false → (p.ServeHTTP x now u).mirrored = false) ∧
    (p.mirrorFraction.le Float64.zero = true → (p.ServeHTTP x now u).mirrored = false) ∧
    (p.mirrorFraction.ge Float64.one = true → (p.guard.ShouldMirror now).1 = true →
      (p.ServeHTTP x now u).mirrored = true) := by
  have hz : Float64.zero.isNaN = false := by decide
  have hun : u.isNaN = false := (Float64.not_nan_of_lt hu.2).1
  simp only [Exchange.baselineOk, Bool.and_eq_true, Bool.not_eq_true'] at hok
  obtain ⟨⟨⟨h1, h2⟩, h3⟩, h4⟩ := hok
  have hserve : (p.ServeHTTP x now u).mirrored =
      ((p.guard.ShouldMirror now).1 && !(p.mirrorFraction.le Float64.zero) &&
        !(u.ge p.mirrorFraction)) := by
    simp only [Proxy.ServeHTTP, h1, h2, h3, h4, Bool.false_eq_true, if_false]
    cases (p.guard.ShouldMirror now).1 <;> cases p.mirrorFraction.le Float64.zero <;>
      cases u.ge p.mirrorFraction <;> simp
  rw [hserve]
  refine ⟨?_, ?_, ?_, ?_⟩
  · intro hf
    rw [← Float64.le_false_iff_gt hf hz, ← Float64.ge_false_iff_lt hun hf]
    simp [Bool.and_assoc]
  · intro h
    simp [h]
  · intro h
    simp [h]
  · intro hge hs
    have hf : p.mirrorFraction.isNaN = false := (Float64.not_nan_of_ge hge).1
    have hlt : u.lt p.mirrorFraction = true := Float64.lt_of_lt_of_ge hu.2 hge
    have hgt : p.mirrorFraction.gt Float64.zero = true := by
      have hk : Float64.zero.key < Float64.one.key := by decide
      simp only [Float64.ge, Float64.gt, Bool.and_eq_true, Bool.not_eq_true',
        decide_eq_true_eq] at hge ⊢
      exact ⟨⟨hf, hz⟩, lt_of_lt_of_le hk hge.2⟩
    rw [(Float64.le_false_iff_gt hf hz).mpr hgt, (Float64.ge_false_iff_lt hun hf).mpr hlt, hs]
    rfl

/-- A fresh guardrail, fraction `0.25`, baseline status `200`: the draw
`0.5` is at or above the fraction, so the request is not mirrored. -/
theorem C8_witness :
    ((⟨NewGuardrail ⟨Float64.c1_15, Float64.c0_005, 5, 10 * Second⟩, Float64.quarter⟩ :
        Proxy).ServeHTTP ⟨false, false, false, false, 200⟩ 0 Float64.half).mirrored = true ↔
      (((NewGuardrail ⟨Float64.c1_15, Float64.c0_005, 5, 10 * Second⟩).ShouldMirror 0).1 = true ∧
        Float64.quarter.gt Float64.zero = true ∧ Float64.half.lt Float64.quarter = true) :=
  (C8_mirror_admission ⟨NewGuardrail ⟨Float64.c1_15, Float64.c0_005, 5, 10 * Second⟩,
      Float64.quarter⟩ ⟨false, false, false, false, 200⟩ 0 Float64.half
    (by decide) ⟨by decide, by decide⟩).1 (by decide)

/-! ## Response differ: lemmas -/

/-- Induction on decoded values, the hypothesis being available for every
element of an array and every value of an object. -/
theorem JSON.induct {P : JSON → Prop}
    (hnull : P .null) (hbool : ∀ b, P (.bool b)) (hnum : ∀ x, P (.num x))
    (hstr : ∀ s, P (.str s))
    (harr : ∀ xs : List JSON, (∀ x ∈ xs, P x) → P (.arr xs))
    (hobj : ∀ kvs : List (String × JSON), (∀ p ∈ kvs, P p.2) → P (.obj kvs)) :
    ∀ v, P v := by
  intro v
  refine @JSON.rec P (fun xs => ∀ x ∈ xs, P x) (fun kvs => ∀ p ∈ kvs, P p.2)
    (fun p => P p.2) hnull hbool hnum hstr ?_ ?_ ?_ ?_ ?_ ?_ ?_ v
  · intro xs ih
    exact harr xs ih
  · intro kvs ih
    exact hobj kvs ih
  · intro x hx
    simp at hx
  · intro x xs ihx ihxs y hy
    rcases List.mem_cons.mp hy with h | h
    · rw [h]; exact ihx
    · exact ihxs y h
  · intro p hp
    simp at hp
  · intro p kvs ihp ihkvs q hq
    rcases List.mem_cons.mp hq with h | h
    · rw [h]; exact ihp
    · exact ihkvs q h
  · intro k v ih
    exact ih

theorem sanitizeElems_eq_map (lib : JSONLib) (xs : List JSON) :
    sanitizeElems lib xs = xs.map (sanitizeJSON lib) := by
  induction xs with
  | nil => simp [sanitizeElems]
  | cons x rest ih => simp [sanitizeElems, ih]

theorem sanitizeFields_cons (lib : JSONLib) (k : String) (val : JSON)
    (rest out : List (String × JSON)) :
    sanitizeFields lib ((k, val) :: rest) out =
      sanitizeFields lib rest
        (match keptValue lib k val with
          | none => out
          | some x => mapAssign out k x) := by
  unfold keptValue
  rw [sanitizeFields]
  split_ifs <;> rfl

theorem mapAssign_of_not_mem {α : Type} (m : List (String × α)) (k : String) (v : α)
    (h : k ∉ m.map Prod.fst) : mapAssign m k v = m ++ [(k, v)] := by
  induction m with
  | nil => rfl
  | cons p rest ih =>
    obtain ⟨k', v'⟩ := p
    simp only [List.map_cons, List.mem_cons, not_or] at h
    have hne : ¬ k' = k := fun e => h.1 e.symm
    simp [mapAssign, hne, ih h.2]

theorem mapAssign_keys_of_mem {α : Type} (m : List (String × α)) (k : String) (v : α)
    (h : k ∈ m.map Prod.fst) : (mapAssign m k v).map Prod.fst = m.map Prod.fst := by
  induction m with
  | nil => simp at h
  | cons p rest ih =>
    obtain ⟨k', v'⟩ := p
    by_cases hk : k' = k
    · simp [mapAssign, hk]
    · simp only [List.map_cons, List.mem_cons] at h
      have hr : k ∈ rest.map Prod.fst := by
        rcases h with h | h
        · exact absurd h.symm hk
        · exact h
      simp [mapAssign, hk, ih hr]

theorem mem_mapAssign {α : Type} (m : List (String × α)) (k : String) (v : α)
    (p : String × α) (h : p ∈ mapAssign m k v) : p = (k, v) ∨ p ∈ m := by
  induction m with
  | nil =>
    simp only [mapAssign, List.mem_singleton] at h
    exact Or.inl h
  | cons q rest ih =>
    obtain ⟨k', v'⟩ := q
    by_cases hk : k' = k
    · simp only [mapAssign, hk, if_true, List.mem_cons] at h
      rcases h with h | h
      · exact Or.inl h
      · exact Or.inr (List.mem_cons_of_mem _ h)
    · simp only [mapAssign, hk, if_false, List.mem_cons] at h
      rcases h with h | h
      · exact Or.inr (by rw [h]; exact List.mem_cons_self _ _)
      · rcases ih h with h' | h'
        · exact Or.inl h'
        · exact Or.inr (List.mem_cons_of_mem _ h')

/-- An output map of the sanitizer: each key once, and each entry is what
the sanitizer itself would store for it. -/
theorem mapAssign_settled (lib : JSONLib) (out : List (String × JSON)) (k : String) (x : JSON)
    (hnd : (out.map Prod.fst).Nodup) (hout : ∀ p ∈ out, keptValue lib p.1 p.2 = some p.2)
    (hx : keptValue lib k x = some x) :
    ((mapAssign out k x).map Prod.fst).Nodup ∧
      ∀ p ∈ mapAssign out k x, keptValue lib p.1 p.2 = some p.2 := by
  constructor
  · by_cases hk : k ∈ out.map Prod.fst
    · rw [mapAssign_keys_of_mem out k x hk]
      exact hnd
    · rw [mapAssign_of_not_mem out k x hk, List.map_append]
      refine List.Nodup.append hnd (by simp) ?_
      intro a ha hb
      simp only [List.map_cons, List.map_nil, List.mem_singleton] at hb
      exact hk (hb ▸ ha)
  · intro p hp
    rcases mem_mapAssign out k x p hp with h | h
    · rw [h]; exact hx
    · exact hout p h

theorem sanitizeFields_settled (lib : JSONLib) (f : List (String × JSON))
    (ih : ∀ p ∈ f, sanitizeJSON lib (sanitizeJSON lib p.2) = sanitizeJSON lib p.2) :
    ∀ out : List (String × JSON), (out.map Prod.fst).Nodup →
      (∀ p ∈ out, keptValue lib p.1 p.2 = some p.2) →
      ((sanitizeFields lib f out).map Prod.fst).Nodup ∧
        ∀ p ∈ sanitizeFields lib f out, keptValue lib p.1 p.2 = some p.2 := by
  induction f with
  | nil =>
    intro out hnd hout
    rw [sanitizeFields]
    exact ⟨hnd, hout⟩
  | cons q rest ihf =>
    intro out hnd hout
    obtain ⟨k, val⟩ := q
    have ihrest := ihf (fun p hp => ih p (List.mem_cons_of_mem _ hp))
    have hval := ih (k, val) (List.mem_cons_self _ _)
    rw [sanitizeFields_cons]
    cases hkv : keptValue lib k val with
    | none => exact ihrest out hnd hout
    | some x =>
      have hx : keptValue lib k x = some x := by
        unfold keptValue at hkv ⊢
        split_ifs at hkv ⊢ with h1 h2
        · exact hkv
        · simp only [Option.some.injEq] at hkv
          rw [← hkv]
          exact congrArg some hval
      obtain ⟨h1, h2⟩ := mapAssign_settled lib out k x hnd hout hx
      exact ihrest (mapAssign out k x) h1 h2

theorem sanitizeFields_of_settled (lib : JSONLib) (r : List (String × JSON)) :
    ∀ out : List (String × JSON), ((out ++ r).map Prod.fst).Nodup →
      (∀ p ∈ r, keptValue lib p.1 p.2 = some p.2) →
      sanitizeFields lib r out = out ++ r := by
  induction r with
  | nil =>
    intro out _ _
    rw [sanitizeFields]
    simp
  | cons q rest ih =>
    intro out hnd hr
    obtain ⟨k, v⟩ := q
    have hk : k ∉ out.map Prod.fst := by
      intro hmem
      rw [List.map_append, List.nodup_append] at hnd
      exact hnd.2.2 hmem (by simp)
    rw [sanitizeFields_cons, hr (k, v) (List.mem_cons_self _ _)]
    simp only
    rw [mapAssign_of_not_mem out k v hk]
    have hnd' : (((out ++ [(k, v)]) ++ rest).map Prod.fst).Nodup := by
      simpa using hnd
    rw [ih (out ++ [(k, v)]) hnd' (fun p hp => hr p (List.mem_cons_of_mem _ hp))]
    simp

theorem encodeElems_eq_map (lib : JSONLib) (xs : List JSON) :
    encodeElems lib xs = xs.map (encode lib) := by
  induction xs with
  | nil => simp [encodeElems]
  | cons x rest ih => simp [encodeElems, ih]

theorem encodeFields_eq_map (lib : JSONLib) (kvs : List (String × JSON)) :
    encodeFields lib kvs = kvs.map (fun p => (p.1, encode lib p.2)) := by
  induction kvs with
  | nil => simp [encodeFields]
  | cons p rest ih =>
    obtain ⟨k, v⟩ := p
    simp [encodeFields, ih]

theorem wellFormedFields_iff (kvs : List (String × JSON)) :
    wellFormedFields kvs = true ↔ ∀ p ∈ kvs, p.2.wellFormed = true := by
  induction kvs with
  | nil => simp [wellFormedFields]
  | cons p rest ih =>
    obtain ⟨k, v⟩ := p
    simp [wellFormedFields, ih]

theorem wellFormedElems_iff (xs : List JSON) :
    wellFormedElems xs = true ↔ ∀ x ∈ xs, x.wellFormed = true := by
  induction xs with
  | nil => simp [wellFormedElems]
  | cons x rest ih => simp [wellFormedElems, ih]

theorem similarFields_iff (e : String → Bool) (f g : List (String × JSON)) :
    similarFields e f g = true ↔
      ∀ p ∈ f, ∃ w, g.lookup p.1 = some w ∧ (e p.1 = true ∨ p.2.similar e w = true) := by
  induction f with
  | nil => simp [similarFields]
  | cons p rest ih =>
    obtain ⟨k, v⟩ := p
    simp only [similarFields, Bool.and_eq_true, ih, List.mem_cons, forall_eq_or_imp]
    apply and_congr_left
    intro _
    cases g.lookup k with
    | none => simp
    | some w => simp

theorem lookup_some_mem {α : Type} (g : List (String × α)) (k : String) (w : α)
    (h : g.lookup k = some w) : (k, w) ∈ g := by
  induction g with
  | nil => simp [List.lookup] at h
  | cons p rest ih =>
    obtain ⟨k', v'⟩ := p
    by_cases hk : k = k'
    · subst hk
      simp [List.lookup] at h
      simp [h]
    · have hb : (k == k') = false := by simpa using hk
      simp only [List.lookup, hb] at h
      exact List.mem_cons_of_mem _ (ih h)

theorem lookup_of_mem_nodup {α : Type} (g : List (String × α)) (k : String) (w : α)
    (hnd : (g.map Prod.fst).Nodup) (h : (k, w) ∈ g) : g.lookup k = some w := by
  induction g with
  | nil => simp at h
  | cons p rest ih =>
    obtain ⟨k', v'⟩ := p
    simp only [List.map_cons, List.nodup_cons] at hnd
    rcases List.mem_cons.mp h with h | h
    · simp only [Prod.mk.injEq] at h
      obtain ⟨rfl, rfl⟩ := h
      simp [List.lookup]
    · have hk : k ≠ k' := by
        intro e
        apply hnd.1
        rw [← e]
        exact List.mem_map.mpr ⟨(k, w), h, rfl⟩
      have hb : (k == k') = false := by simpa using hk
      simp only [List.lookup, hb]
      exact ih hnd.2 h

theorem sanitizeFields_eq_filterMap (lib : JSONLib) (f : List (String × JSON)) :
    ∀ out : List (String × JSON), ((out ++ f).map Prod.fst).Nodup →
      sanitizeFields lib f out =
        out ++ f.filterMap (fun p => (keptValue lib p.1 p.2).map (fun x => (p.1, x))) := by
  induction f with
  | nil =>
    intro out _
    rw [sanitizeFields]
    simp
  | cons q rest ih =>
    intro out hnd
    obtain ⟨k, v⟩ := q
    have hk : k ∉ out.map Prod.fst := by
      intro hmem
      rw [List.map_append, List.nodup_append] at hnd
      exact hnd.2.2 hmem (by simp)
    have hnd1 : ((out ++ rest).map Prod.fst).Nodup := by
      have hsub : (out ++ rest).Sublist (out ++ (k, v) :: rest) :=
        List.Sublist.append_left (List.sublist_cons_self _ _) _
      exact List.Nodup.sublist (hsub.map Prod.fst) hnd
    rw [sanitizeFields_cons]
    cases hkv : keptValue lib k v with
    | none =>
      simp only
      rw [ih out hnd1]
      simp [hkv]
    | some x =>
      simp only
      rw [mapAssign_of_not_mem out k x hk]
      have hnd2 : (((out ++ [(k, x)]) ++ rest).map Prod.fst).Nodup := by
        simpa using hnd
      rw [ih (out ++ [(k, x)]) hnd2]
      simp [hkv]

theorem encodeFields_sanitizeFields (lib : JSONLib) (f : List (String × JSON))
    (hnd : (f.map Prod.fst).Nodup) :
    encodeFields lib (sanitizeFields lib f []) = f.filterMap (encodedEntry lib) := by
  rw [sanitizeFields_eq_filterMap lib f [] (by simpa using hnd), encodeFields_eq_map]
  simp only [List.nil_append, List.map_filterMap]
  apply List.filterMap_congr
  intro p _
  unfold encodedEntry
  cases keptValue lib p.1 p.2 <;> simp

theorem encodedEntry_key (lib : JSONLib) (p : String × JSON) (q : String × String)
    (h : encodedEntry lib p = some q) : q.1 = p.1 := by
  unfold encodedEntry at h
  cases hk : keptValue lib p.1 p.2 with
  | none => simp [hk] at h
  | some x =>
    simp [hk] at h
    rw [← h]

theorem filterMap_encodedEntry_keys (lib : JSONLib) (f : List (String × JSON)) :
    ((f.filterMap (encodedEntry lib)).map Prod.fst).Sublist (f.map Prod.fst) := by
  induction f with
  | nil => simp
  | cons p rest ih =>
    cases h : encodedEntry lib p with
    | none =>
      rw [List.filterMap_cons_none h]
      exact List.Sublist.cons _ ih
    | some q =>
      rw [List.filterMap_cons_some h, List.map_cons, List.map_cons, encodedEntry_key lib p q h]
      exact List.Sublist.cons₂ _ ih

theorem keyLE_iff (p q : String × String) : keyLE p q ↔ p.1 ≤ q.1 :=
  String.le_iff_toList_le.symm

theorem keyLE_total : IsTotal (String × String) keyLE :=
  ⟨fun p q => by
    rw [keyLE_iff, keyLE_iff]
    exact le_total p.1 q.1⟩

theorem keyLE_trans : IsTrans (String × String) keyLE :=
  ⟨fun p q r h1 h2 => by
    rw [keyLE_iff] at *
    exact le_trans h1 h2⟩

/-- Sorting by key does not depend on the order of a list whose keys are
distinct. -/
theorem insertionSort_keyLE_congr (l₁ l₂ : List (String × String)) (hp : l₁.Perm l₂)
    (hnd : (l₁.map Prod.fst).Nodup) :
    List.insertionSort keyLE l₁ = List.insertionSort keyLE l₂ := by
  haveI : IsTotal (String × String) keyLE := keyLE_total
  haveI : IsTrans (String × String) keyLE := keyLE_trans
  have strict : ∀ l : List (String × String), (l.map Prod.fst).Nodup →
      List.Sorted (fun p q : String × String => p.1 < q.1) (List.insertionSort keyLE l) := by
    intro l hl
    have hs : List.Pairwise keyLE (List.insertionSort keyLE l) := List.sorted_insertionSort keyLE l
    have hn : ((List.insertionSort keyLE l).map Prod.fst).Nodup :=
      (((List.perm_insertionSort keyLE l).map Prod.fst).nodup_iff).mpr hl
    have hn' : List.Pairwise (fun p q : String × String => p.1 ≠ q.1)
        (List.insertionSort keyLE l) := List.pairwise_map.mp hn
    refine (hs.and hn').imp ?_
    intro p q h
    exact lt_of_le_of_ne ((keyLE_iff p q).mp h.1) h.2
  haveI : IsAntisymm (String × String) (fun p q : String × String => p.1 < q.1) :=
    ⟨fun p q h1 h2 => absurd h1 (not_lt_of_gt h2)⟩
  have hnd2 : (l₂.map Prod.fst).Nodup := ((hp.map Prod.fst).nodup_iff).mp hnd
  exact List.eq_of_perm_of_sorted
    (((List.perm_insertionSort keyLE l₁).trans hp).trans (List.perm_insertionSort keyLE l₂).symm)
    (strict l₁ hnd) (strict l₂ hnd2)

theorem encodedEntry_congr (lib : JSONLib) (k : String) (v w : JSON)
    (h : ignoreKeys.contains (lib.toLower k) = true ∨ piiKeys.contains (lib.toLower k) = true ∨
      encode lib (sanitizeJSON lib v) = encode lib (sanitizeJSON lib w)) :
    encodedEntry lib (k, v) = encodedEntry lib (k, w) := by
  unfold encodedEntry keptValue
  by_cases h1 : ignoreKeys.contains (lib.toLower k) = true
  · simp only [if_pos h1]
  · by_cases h2 : piiKeys.contains (lib.toLower k) = true
    · simp only [if_neg h1, if_pos h2]
    · rcases h with h | h | h
      · exact absurd h h1
      · exact absurd h h2
      · simp only [if_neg h1, if_neg h2, Option.map, h]

theorem map_encode_of_similarElems (lib : JSONLib) (e : String → Bool) (xs : List JSON)
    (ih : ∀ x ∈ xs, ∀ b : JSON, x.wellFormed = true → b.wellFormed = true →
      x.similar e b = true → encode lib (sanitizeJSON lib x) = encode lib (sanitizeJSON lib b)) :
    ∀ ys : List JSON, wellFormedElems xs = true → wellFormedElems ys = true →
      similarElems e xs ys = true →
      (xs.map (sanitizeJSON lib)).map (encode lib) = (ys.map (sanitizeJSON lib)).map (encode lib) := by
  induction xs with
  | nil =>
    intro ys _ _ hs
    cases ys with
    | nil => rfl
    | cons y rest => simp [similarElems] at hs
  | cons x rest ihl =>
    intro ys hx hy hs
    cases ys with
    | nil => simp [similarElems] at hs
    | cons y ys' =>
      simp only [similarElems, Bool.and_eq_true] at hs
      simp only [wellFormedElems, Bool.and_eq_true] at hx hy
      simp only [List.map_cons, List.cons.injEq]
      exact ⟨ih x (List.mem_cons_self _ _) y hx.1 hy.1 hs.1,
        ihl (fun z hz => ih z (List.mem_cons_of_mem _ hz)) ys' hx.2 hy.2 hs.2⟩

/-- The encoded entries of two similar objects are the same up to order. -/
theorem filterMap_encodedEntry_perm (lib : JSONLib) (e : String → Bool)
    (hex : ∀ k, e k = true →
      ignoreKeys.contains (lib.toLower k) = true ∨ piiKeys.contains (lib.toLower k) = true)
    (f g : List (String × JSON))
    (ih : ∀ p ∈ f, ∀ b : JSON, p.2.wellFormed = true → b.wellFormed = true →
      p.2.similar e b = true →
      encode lib (sanitizeJSON lib p.2) = encode lib (sanitizeJSON lib b))
    (hf : (f.map Prod.fst).Nodup) (hg : (g.map Prod.fst).Nodup)
    (hfw : ∀ p ∈ f, p.2.wellFormed = true) (hgw : ∀ p ∈ g, p.2.wellFormed = true)
    (hkeys : ∀ k ∈ g.map Prod.fst, k ∈ f.map Prod.fst)
    (hsim : ∀ p ∈ f, ∃ w, g.lookup p.1 = some w ∧ (e p.1 = true ∨ p.2.similar e w = true)) :
    (f.filterMap (encodedEntry lib)).Perm (g.filterMap (encodedEntry lib)) := by
  have key : ∀ p ∈ f, ∀ w, g.lookup p.1 = some w →
      (e p.1 = true ∨ p.2.similar e w = true) →
      encodedEntry lib p = encodedEntry lib (p.1, w) := by
    intro p hp w hw hrel
    apply encodedEntry_congr lib p.1 p.2 w
    rcases hrel with h | h
    · rcases hex p.1 h with h' | h'
      · exact Or.inl h'
      · exact Or.inr (Or.inl h')
    · exact Or.inr (Or.inr (ih p hp w (hfw p hp) (hgw _ (lookup_some_mem g p.1 w hw)) h))
  have ndf : (f.filterMap (encodedEntry lib)).Nodup :=
    List.Nodup.of_map Prod.fst (List.Nodup.sublist (filterMap_encodedEntry_keys lib f) hf)
  have ndg : (g.filterMap (encodedEntry lib)).Nodup :=
    List.Nodup.of_map Prod.fst (List.Nodup.sublist (filterMap_encodedEntry_keys lib g) hg)
  rw [List.perm_ext_iff_of_nodup ndf ndg]
  intro q
  simp only [List.mem_filterMap]
  constructor
  · rintro ⟨p, hp, hq⟩
    obtain ⟨w, hw, hrel⟩ := hsim p hp
    exact ⟨(p.1, w), lookup_some_mem g p.1 w hw, by rw [← key p hp w hw hrel]; exact hq⟩
  · rintro ⟨p, hp, hq⟩
    obtain ⟨k, w⟩ := p
    have hk : k ∈ f.map Prod.fst := hkeys k (List.mem_map.mpr ⟨(k, w), hp, rfl⟩)
    obtain ⟨p', hp', hk'⟩ := List.mem_map.mp hk
    obtain ⟨w', hw', hrel⟩ := hsim p' hp'
    have hlook : g.lookup p'.1 = some w := by
      rw [hk']
      exact lookup_of_mem_nodup g k w hg hp
    have hww : w' = w := by
      rw [hlook] at hw'
      exact (Option.some.inj hw').symm
    subst hww
    refine ⟨p', hp', ?_⟩
    rw [key p' hp' w' hw' hrel, hk']
    exact hq

/-- The canonical encoding of the sanitized value is the same for two well
formed values that are similar, when every exempt key is dropped or masked
by the sanitizer. -/
theorem encode_sanitize_of_similar (lib : JSONLib) (e : String → Bool)
    (hex : ∀ k, e k = true →
      ignoreKeys.contains (lib.toLower k) = true ∨ piiKeys.contains (lib.toLower k) = true) :
    ∀ a b : JSON, a.wellFormed = true → b.wellFormed = true → a.similar e b = true →
      encode lib (sanitizeJSON lib a) = encode lib (sanitizeJSON lib b) := by
  intro a
  induction a using JSON.induct with
  | hnull =>
    intro b _ _ hs
    cases b <;> first | rfl | simp [JSON.similar] at hs
  | hbool x =>
    intro b _ _ hs
    cases b <;> simp [JSON.similar] at hs
    rw [hs]
  | hnum x =>
    intro b _ _ hs
    cases b <;> simp [JSON.similar] at hs
    rw [hs]
  | hstr x =>
    intro b _ _ hs
    cases b <;> simp [JSON.similar] at hs
    rw [hs]
  | harr xs ih =>
    intro b ha hb hs
    cases b <;> simp only [JSON.similar, Bool.false_eq_true] at hs
    rename_i ys
    simp only [JSON.wellFormed] at ha hb
    simp only [sanitizeJSON, encode, sanitizeElems_eq_map, encodeElems_eq_map]
    rw [map_encode_of_similarElems lib e xs ih ys ha hb hs]
  | hobj f ih =>
    intro b ha hb hs
    cases b <;> simp only [JSON.similar, Bool.false_eq_true] at hs
    rename_i g
    simp only [JSON.wellFormed, Bool.and_eq_true, decide_eq_true_eq, wellFormedFields_iff]
      at ha hb
    simp only [Bool.and_eq_true, List.all_eq_true, similarFields_iff] at hs
    have hperm := filterMap_encodedEntry_perm lib e hex f g ih ha.1 hb.1 ha.2 hb.2
      (fun k hk => by simpa using hs.1 k hk) hs.2
    have hnd : ((f.filterMap (encodedEntry lib)).map Prod.fst).Nodup :=
      List.Nodup.sublist (filterMap_encodedEntry_keys lib f) ha.1
    simp only [sanitizeJSON, encode]
    rw [encodeFields_sanitizeFields lib f ha.1, encodeFields_sanitizeFields lib g hb.1,
      insertionSort_keyLE_congr _ _ hperm hnd]

theorem similarElems_refl (e : String → Bool) (xs : List JSON)
    (ih : ∀ x ∈ xs, x.wellFormed = true → x.similar e x = true)
    (hw : wellFormedElems xs = true) : similarElems e xs xs = true := by
  induction xs with
  | nil => simp [similarElems]
  | cons x rest ihl =>
    simp only [wellFormedElems, Bool.and_eq_true] at hw
    simp only [similarElems, Bool.and_eq_true]
    exact ⟨ih x (List.mem_cons_self _ _) hw.1,
      ihl (fun z hz => ih z (List.mem_cons_of_mem _ hz)) hw.2⟩

/-- A well formed value is similar to itself. -/
theorem JSON.similar_refl (e : String → Bool) :
    ∀ v : JSON, v.wellFormed = true → v.similar e v = true := by
  intro v
  induction v using JSON.induct with
  | hnull => intro _; simp [JSON.similar]
  | hbool b => intro _; simp [JSON.similar]
  | hnum x => intro _; simp [JSON.similar]
  | hstr s => intro _; simp [JSON.similar]
  | harr xs ih =>
    intro hw
    simp only [JSON.wellFormed] at hw
    simp only [JSON.similar]
    exact similarElems_refl e xs ih hw
  | hobj f ih =>
    intro hw
    simp only [JSON.wellFormed, Bool.and_eq_true, decide_eq_true_eq, wellFormedFields_iff] at hw
    simp only [JSON.similar, Bool.and_eq_true, List.all_eq_true, similarFields_iff]
    refine ⟨fun k hk => by simpa using hk, ?_⟩
    intro p hp
    exact ⟨p.2, lookup_of_mem_nodup f p.1 p.2 hw.1 hp, Or.inr (ih p hp (hw.2 p hp))⟩

/-- An object is similar to each reordering of its entries. -/
theorem JSON.similar_obj_of_perm (e : String → Bool) (f g : List (String × JSON))
    (hp : f.Perm g) (hw : (JSON.obj f).wellFormed = true) :
    (JSON.obj f).similar e (JSON.obj g) = true := by
  simp only [JSON.wellFormed, Bool.and_eq_true, decide_eq_true_eq, wellFormedFields_iff] at hw
  simp only [JSON.similar, Bool.and_eq_true, List.all_eq_true, similarFields_iff]
  have hg : (g.map Prod.fst).Nodup := ((hp.map Prod.fst).nodup_iff).mp hw.1
  refine ⟨fun k hk => by simpa using ((hp.map Prod.fst).mem_iff).mpr hk, ?_⟩
  intro p hpf
  exact ⟨p.2, lookup_of_mem_nodup g p.1 p.2 hg (hp.mem_iff.mp hpf),
    Or.inr (JSON.similar_refl e p.2 (hw.2 p hpf))⟩

/-- Changing the value stored under an exempt key, to a value of any type,
gives a similar object. -/
theorem JSON.similar_obj_change_exempt (e : String → Bool) (k : String) (v w : JSON)
    (f : List (String × JSON)) (hk : e k = true)
    (hw : (JSON.obj ((k, v) :: f)).wellFormed = true) :
    (JSON.obj ((k, v) :: f)).similar e (JSON.obj ((k, w) :: f)) = true := by
  simp only [JSON.wellFormed, Bool.and_eq_true, decide_eq_true_eq, wellFormedFields_iff,
    List.map_cons, List.nodup_cons] at hw
  simp only [JSON.similar, Bool.and_eq_true, List.all_eq_true, similarFields_iff, List.map_cons]
  refine ⟨fun x hx => by simpa using hx, ?_⟩
  intro p hp
  rcases List.mem_cons.mp hp with h | h
  · rw [h]
    exact ⟨w, by simp [List.lookup], Or.inl hk⟩
  · have hne : p.1 ≠ k := by
      intro heq
      apply hw.1.1
      rw [← heq]
      exact List.mem_map.mpr ⟨p, h, rfl⟩
    have hb : (p.1 == k) = false := by simpa using hne
    refine ⟨p.2, ?_, Or.inr (JSON.similar_refl e p.2 (hw.2 p (List.mem_cons_of_mem _ h)))⟩
    simp only [List.lookup, hb]
    exact lookup_of_mem_nodup f p.1 p.2 hw.1.2 h

theorem equalJSONBodies_of_encode_eq (lib : JSONLib) (a b : List UInt8) (va vb : JSON)
    (ha : lib.unmarshal a = some va) (hb : lib.unmarshal b = some vb)
    (h : encode lib (sanitizeJSON lib va) = encode lib (sanitizeJSON lib vb)) :
    equalJSONBodies lib a b = (true, none) := by
  simp only [equalJSONBodies, ha, hb, jsonMarshal, h, decide_True]

/-! ## Response differ: theorems -/

/-- C10: for every decoded JSON value, of any shape and depth, sanitizing
an already sanitized value changes nothing:
`sanitizeJSON (sanitizeJSON v) = sanitizeJSON v`. -/
theorem C10_sanitizeJSON_idempotent (lib : JSONLib) (v : JSON) :
    sanitizeJSON lib (sanitizeJSON lib v) = sanitizeJSON lib v := by
  induction v using JSON.induct with
  | hnull => simp [sanitizeJSON]
  | hbool b => simp [sanitizeJSON]
  | hnum x => simp [sanitizeJSON]
  | hstr s => simp [sanitizeJSON]
  | harr xs ih =>
    simp only [sanitizeJSON, sanitizeElems_eq_map, List.map_map, JSON.arr.injEq]
    apply List.map_congr_left
    intro x hx
    exact ih x hx
  | hobj kvs ih =>
    simp only [sanitizeJSON, JSON.obj.injEq]
    obtain ⟨h1, h2⟩ := sanitizeFields_settled lib kvs ih [] (by simp) (by simp)
    have := sanitizeFields_of_settled lib (sanitizeFields lib kvs []) [] (by simpa using h1) h2
    simpa using this

/-- C5 fails on the code for the camel-case members of `ignoreKeys`: the
looked-up key is lower-cased, so `traceId` is searched as `traceid`, which
is not a member, and the key is kept. For every library that lower-cases
`traceId` to `traceid`, decodes the two bodies to the objects
`{"traceId":"a"}` and `{"traceId":"b"}` and writes the strings `a` and `b`
differently, `sanitizeJSON` keeps the key and `equalJSONBodies` reports the
bodies different. -/
theorem C5_traceId_not_dropped (lib : JSONLib) (a b : List UInt8)
    (hl : lib.toLower "traceId" = "traceid")
    (ha : lib.unmarshal a = some (.obj [("traceId", .str "a")]))
    (hb : lib.unmarshal b = some (.obj [("traceId", .str "b")]))
    (henc : lib.encodeString "a" ≠ lib.encodeString "b") :
    sanitizeJSON lib (.obj [("traceId", .str "a")]) = .obj [("traceId", .str "a")] ∧
    equalJSONBodies lib a b = (false, none) := by
  have hi : ignoreKeys.contains "traceid" = false := by decide
  have hp : piiKeys.contains "traceid" = false := by decide
  have hs : ∀ x : String,
      sanitizeJSON lib (.obj [("traceId", .str x)]) = .obj [("traceId", .str x)] := by
    intro x
    simp only [sanitizeJSON, sanitizeFields, hl, hi, hp, Bool.false_eq_true, if_false, mapAssign]
  have he : ∀ x : String, encode lib (.obj [("traceId", .str x)]) =
      "\x7b" ++ (lib.encodeString "traceId" ++ ":" ++ lib.encodeString x) ++ "\x7d" := by
    intro x
    simp [encode, encodeFields, String.intercalate, String.intercalate.go]
  refine ⟨hs "a", ?_⟩
  have hne : encode lib (.obj [("traceId", .str "a")]) ≠ encode lib (.obj [("traceId", .str "b")]) := by
    rw [he, he]
    intro h
    apply henc
    have h' := congrArg String.data h
    simp only [String.data_append, List.append_assoc, List.append_cancel_left_eq] at h'
    exact String.ext (List.append_cancel_right h')
  simp only [equalJSONBodies, ha, hb, jsonMarshal, hs, hne, decide_False]

/-- The bodies `{"traceId":"a"}` and `{"traceId":"b"}` under the library
instance of the examples. -/
theorem C5_witness :
    equalJSONBodies exampleLib (asciiBytes "\x7b\"traceId\":\"a\"\x7d")
      (asciiBytes "\x7b\"traceId\":\"b\"\x7d") = (false, none) :=
  (C5_traceId_not_dropped exampleLib _ _ (by decide) (by rfl) (by rfl) (by decide)).2

/-- C6: two bodies whose decoded values are the same except for the values
stored under keys that lower-case to `email`, `phone`, `name` or `cc_last4`,
at any depth and of any JSON type, compare equal without error; the same
holds when the values under keys that lower-case to a member of
`ignoreKeys` differ as well (scenario A of the specification). -/
theorem C6_pii_values_do_not_matter (lib : JSONLib) (a b : List UInt8) (va vb : JSON)
    (ha : lib.unmarshal a = some va) (hb : lib.unmarshal b = some vb)
    (hwa : va.wellFormed = true) (hwb : vb.wellFormed = true) :
    (va.similar (piiExempt lib) vb = true → equalJSONBodies lib a b = (true, none)) ∧
    (va.similar (sanitizedExempt lib) vb = true → equalJSONBodies lib a b = (true, none)) := by
  constructor
  · intro hs
    apply equalJSONBodies_of_encode_eq lib a b va vb ha hb
    exact encode_sanitize_of_similar lib (piiExempt lib) (fun k hk => Or.inr hk) va vb hwa hwb hs
  · intro hs
    apply equalJSONBodies_of_encode_eq lib a b va vb ha hb
    refine encode_sanitize_of_similar lib (sanitizedExempt lib) ?_ va vb hwa hwb hs
    intro k hk
    simpa [sanitizedExempt] using hk

/-- Scenario A: `{"email":"a@b.com","timestamp":"t1"}` against
`{"email":"c@d.com","timestamp":"t2"}` is equal. -/
theorem C6_witness :
    equalJSONBodies exampleLib
      (asciiBytes "\x7b\"email\":\"a@b.com\",\"timestamp\":\"t1\"\x7d")
      (asciiBytes "\x7b\"email\":\"c@d.com\",\"timestamp\":\"t2\"\x7d") = (true, none) :=
  (C6_pii_values_do_not_matter exampleLib _ _
    (.obj [("email", .str "a@b.com"), ("timestamp", .str "t1")])
    (.obj [("email", .str "c@d.com"), ("timestamp", .str "t2")])
    (by rfl) (by rfl) (by decide) (by decide)).2 (by decide)

/-- C7: two bodies whose decoded values are the same Go values, their objects
listing the same entries in any order at any depth and their arrays the same
elements in the same order, compare equal without error: the canonical
encoding of the sanitized value does not depend on the order of the keys.
-/
theorem C7_key_order_does_not_matter (lib : JSONLib) (a b : List UInt8) (va vb : JSON)
    (ha : lib.unmarshal a = some va) (hb : lib.unmarshal b = some vb)
    (hwa : va.wellFormed = true) (hwb : vb.wellFormed = true)
    (hs : va.similar noExempt vb = true) :
    encode lib (sanitizeJSON lib va) = encode lib (sanitizeJSON lib vb) ∧
    equalJSONBodies lib a b = (true, none) := by
  have h := encode_sanitize_of_similar lib noExempt (fun k hk => by simp [noExempt] at hk)
    va vb hwa hwb hs
  exact ⟨h, equalJSONBodies_of_encode_eq lib a b va vb ha hb h⟩

/-- The bodies `{"a":1,"b":{"x":true,"y":[1,2]}}` and
`{"b":{"y":[1,2],"x":true},"a":1}` compare equal. -/
theorem C7_witness :
    equalJSONBodies exampleLib
      (asciiBytes "\x7b\"a\":1,\"b\":\x7b\"x\":true,\"y\":[1,2]\x7d\x7d")
      (asciiBytes "\x7b\"b\":\x7b\"y\":[1,2],\"x\":true\x7d,\"a\":1\x7d") = (true, none) :=
  (C7_key_order_does_not_matter exampleLib _ _
    (.obj [("a", .num Float64.one),
           ("b", .obj [("x", .bool true), ("y", .arr [.num Float64.one, .num Float64.two])])])
    (.obj [("b", .obj [("y", .arr [.num Float64.one, .num Float64.two]), ("x", .bool true)]),
           ("a", .num Float64.one)])
    (by rfl) (by rfl) (by decide) (by decide) (by decide)).2
